/-
Verification of the koukoku backlog bot core (src/bot.ts): the recency
cache, the stream framer, the command router, the expression validator,
the tally engine and the dispatch coordinator, shallowly embedded in
Lean 4.  JavaScript arrays, Maps and Sets are modelled as Lean lists and
insertion-ordered association lists; asynchronous handlers are modelled
as state-passing functions into the `Except` monad (a thrown exception
becomes `Except.error`) that additionally return the trace of external
effects they would perform, in the order the source initiates them.
-/
import Mathlib

namespace Koukoku

/-- The value stored per log entry: `{ log: text }` in `appendLogAsync`. -/
structure LogMessage where
  log : String
deriving DecidableEq, Repr

/-- A log record: `{ id, message }` as built in `appendLogAsync` and loaded
in `queryLogAsync`.  The id is the persistence-assigned stream id, a
string whose prefix before `-` is a millisecond timestamp. -/
structure Log where
  id : String
  message : LogMessage
deriving DecidableEq, Repr

/-- Insertion-ordered association list, modelling a JavaScript `Map`:
`set` on an existing key updates it in place, on a fresh key appends. -/
def alSet {α β : Type} [DecidableEq α] (k : α) (v : β) : List (α × β) → List (α × β)
  | [] => [(k, v)]
  | (k', v') :: t => if k' = k then (k, v) :: t else (k', v') :: alSet k v t

/-- `Map.get`, as lookup in the association list. -/
def alGet {α β : Type} [DecidableEq α] (k : α) : List (α × β) → Option β
  | [] => none
  | (k', v') :: t => if k' = k then some v' else alGet k t

/-- A JavaScript `Set` of strings, modelled as the insertion-ordered list
of its distinct members: `add` appends when absent. -/
def setAdd (x : String) (s : List String) : List String :=
  if s.contains x then s else s ++ [x]

/-- The `recent` triple of `Bot`: the ordered list of records, the index
by id (`Map`) and the dedup set of raw texts (`Set`). -/
structure RecentCache where
  list : List Log
  map : List (String × Log)
  set : List String
deriving DecidableEq, Repr

/-- `Bot.appendLogAsync`: persist the text (the id is the one the store
assigns), `unshift` the record onto the head of `recent.list`, index it,
and add the raw text to the dedup set.  No duplicate-text check is made
on this path. -/
def appendLog (c : RecentCache) (id : String) (text : String) : RecentCache × Log :=
  let obj : Log := ⟨id, ⟨text⟩⟩
  (⟨obj :: c.list, alSet id obj c.map, setAdd text c.set⟩, obj)

/-- JavaScript's `<` on two strings: lexicographic comparison (by code
units; the ids compared here are ASCII). -/
def jsCharsLt : List Char → List Char → Bool
  | [], [] => false
  | [], _ :: _ => true
  | _ :: _, [] => false
  | a :: as, b :: bs =>
    if a.toNat < b.toNat then true
    else if a.toNat = b.toNat then jsCharsLt as bs
    else false

/-- `lhs < rhs` on id strings. -/
def jsStringLt (a b : String) : Bool :=
  jsCharsLt a.toList b.toList

/-- `Bot.updateRecent`: merge one historical record.  If the raw text is
already in the dedup set, do nothing.  Otherwise `findIndex` the first
position whose id is less than the record's id (`-1` when there is
none), `splice` the list there — JavaScript's `splice(-1)` starts at
`max(length - 1, 0)` — push the record and push the removed suffix
back. -/
def updateRecent (c : RecentCache) (log : Log) : RecentCache :=
  if c.set.contains log.message.log then c
  else
    let index := c.list.findIdx? fun v => jsStringLt v.id log.id
    -- JavaScript `splice(index)` with `index = -1` when `findIndex` misses:
    -- the start position is `max(length - 1, 0)`.
    let start := match index with
      | some i => i
      | none => c.list.length - 1
    let rhs := c.list.drop start
    let lhs := c.list.take start
    ⟨lhs ++ log :: rhs, alSet log.id log c.map, c.set ++ [log.message.log]⟩

/-- Whether a list of records is sorted strictly descending by id
(invariant I1 of the spec). -/
def sortedDescB : List Log → Bool
  | [] => true
  | [_] => true
  | a :: b :: t => jsStringLt b.id a.id && sortedDescB (b :: t)

/-- JavaScript's `\s` character class. -/
def jsIsSpace (c : Char) : Bool :=
  c ∈ ['\t', '\n', '\x0b', '\x0c', '\r', ' ',
       '\u00a0', '\u1680', '\u2028', '\u2029', '\u202f', '\u205f', '\u3000', '\ufeff'] ||
  (0x2000 ≤ c.toNat && c.toNat ≤ 0x200a)

/-- JavaScript's `\d` character class. -/
def jsIsDigit (c : Char) : Bool :=
  '0' ≤ c && c ≤ '9'

/-- JavaScript's `\w` character class. -/
def jsIsWord (c : Char) : Bool :=
  ('a' ≤ c && c ≤ 'z') || ('A' ≤ c && c ≤ 'Z') || jsIsDigit c || c = '_'

/-- JavaScript's `.` (no `s` flag): any character but a line terminator. -/
def jsIsDot (c : Char) : Bool :=
  c ∉ ['\n', '\r', '\u2028', '\u2029']

/-- JavaScript's `String.prototype.trim`: strip whitespace from both
ends. -/
def jsTrim (s : String) : String :=
  String.mk (((s.toList.dropWhile jsIsSpace).reverse.dropWhile jsIsSpace).reverse)

/-! ## Expression validator (`validateParentheses` and helpers) -/

/-- The `Parenthesis` context threaded through the character scan. -/
structure Parenthesis where
  opened : Int
  qualifier : String
deriving DecidableEq, Repr

/-- `valueForParenthesis`: the table assigning each structural character
its contribution to the open-group count; characters outside the table
(identifier letters) yield `none` and accumulate into the qualifier. -/
def valueForParenthesis (c : Char) : Option Int :=
  if c = '(' then some 1
  else if c = ')' then some (-1)
  else if c ∈ [' ', '%', '*', '+', '-', '.', '/',
                '0', '1', '2', '3', '4', '5', '6', '7', '8', '9'] then some 0
  else none

/-- `validateQualifier`: a non-empty accumulated qualifier must be one of
the whitelisted function names, else a "not a function" error is
thrown. -/
def validateQualifier (ctx : Parenthesis) : Except String Unit :=
  if ctx.qualifier.length ≠ 0 ∧
      jsTrim ctx.qualifier ∉ ["cos", "exp", "log", "sin", "tan"] then
    .error (ctx.qualifier ++ "は関数ではありません")
  else
    .ok ()

/-- `updateParenthesisContext`: one step of the scan. -/
def updateParenthesisContext (ctx : Parenthesis) (c : Char) : Except String Parenthesis :=
  match valueForParenthesis c with
  | none => .ok { ctx with qualifier := ctx.qualifier.push c }
  | some addendum => do
    validateQualifier ctx
    .ok { opened := ctx.opened + addendum, qualifier := "" }

/-- The `reduce` over the expression's characters, with a thrown
qualifier error propagating out. -/
def scanParentheses : Parenthesis → List Char → Except String Parenthesis
  | ctx, [] => .ok ctx
  | ctx, c :: t => do scanParentheses (← updateParenthesisContext ctx c) t

/-- `validateParentheses`: scan the whole expression, then select the
outcome by `isNaN(opened) * 2 + (opened === 0)`.  The accumulated count
is an integer (each step adds 0, 1 or -1), so the `isNaN` test is always
false and only indices 0 (the missing-closing-bracket message, with the
count interpolated — negative counts included) and 1 (success) are ever
selected; the index-2 message `不正な閉じ括弧があります` is unreachable. -/
def validateParentheses (expr : String) : Except String Unit := do
  let parenthesis ← scanParentheses ⟨0, ""⟩ expr.toList
  let messages : List (Option String) :=
    [some (toString parenthesis.opened ++ "個の閉じ括弧が不足しています"),
     none,
     some "不正な閉じ括弧があります"]
  -- `isNaN(parenthesis.opened)` is always false here: the count is the sum
  -- of integer addenda from `valueForParenthesis`.
  let isNaNOpened := false
  let index := (if isNaNOpened then 2 else 0) + (if parenthesis.opened = 0 then 1 else 0)
  match (messages.getD index none) with
  | some message => .error message
  | none => .ok ()

/-! ## Stream framer (`Bot.MessageRE`, `acceptKoukoku`'s extraction) -/

/-- One extracted event record: the named groups of `Bot.MessageRE`
together with the full matched text (`matched[0]`).  `self` is the
presence of the optional `〈＊あなた様＊〉` self-authorship marker. -/
structure Msg where
  matched : String
  msg : String
  date : String
  time : String
  host : String
  self : Bool
deriving DecidableEq, Repr

/-- Expect a literal character sequence. -/
def eatLit : List Char → List Char → Option (List Char)
  | [], l => some l
  | c :: p, c' :: l => if c = c' then eatLit p l else none
  | _ :: _, [] => none

/-- Expect one character satisfying the predicate. -/
def eatOne (p : Char → Bool) : List Char → Option (Char × List Char)
  | [] => none
  | c :: l => if p c then some (c, l) else none

/-- Expect a run of characters up to (and then past) a forced stopper:
the greedy `[^X]+` run followed by the literal stopper `X`.  Returns the
non-empty run and the input after the stopper. -/
def eatUntil (stopper : Char) (l : List Char) : Option (List Char × List Char) :=
  let run := l.takeWhile (· ≠ stopper)
  match l.drop run.length with
  | [] => none
  | _ :: rest => if run = [] then none else some (run, rest)

/-- `>>\s「\s` of `Bot.MessageRE`. -/
def eatHead (l : List Char) : Option (List Char) :=
  match eatLit ['>', '>'] l with
  | none => none
  | some l1 =>
    match eatOne jsIsSpace l1 with
    | none => none
    | some (_, l2) =>
      match eatLit ['「'] l2 with
      | none => none
      | some l3 =>
        match eatOne jsIsSpace l3 with
        | none => none
        | some (_, l4) => some l4

/-- `(?<msg>[^」]+)\s」`: the greedy run up to the first `」` must end in
a whitespace, and the message before that whitespace must be
non-empty. -/
def eatMsg (l : List Char) : Option (List Char × List Char) :=
  match eatUntil '」' l with
  | none => none
  | some (pre, rest) =>
    match pre.getLast? with
    | none => none
    | some s =>
      if jsIsSpace s ∧ pre.dropLast ≠ [] then some (pre.dropLast, rest) else none

/-- `\d\d` -/
def eatTwoDigits (l : List Char) : Option (List Char × List Char) :=
  match eatOne jsIsDigit l with
  | none => none
  | some (d1, l1) =>
    match eatOne jsIsDigit l1 with
    | none => none
    | some (d2, l2) => some ([d1, d2], l2)

/-- `(?<date>\d\d\/\d\d\s\([^)]+\))` -/
def eatDate (l : List Char) : Option (List Char × List Char) :=
  match eatTwoDigits l with
  | none => none
  | some (mm, l1) =>
    match eatLit ['/'] l1 with
    | none => none
    | some l2 =>
      match eatTwoDigits l2 with
      | none => none
      | some (dd, l3) =>
        match eatOne jsIsSpace l3 with
        | none => none
        | some (sp, l4) =>
          match eatLit ['('] l4 with
          | none => none
          | some l5 =>
            match eatUntil ')' l5 with
            | none => none
            | some (wd, l6) =>
              some (mm ++ '/' :: dd ++ sp :: '(' :: wd ++ [')'], l6)

/-- `(?<time>\d\d:\d\d:\d\d)` -/
def eatTime (l : List Char) : Option (List Char × List Char) :=
  match eatTwoDigits l with
  | none => none
  | some (hh, l1) =>
    match eatLit [':'] l1 with
    | none => none
    | some l2 =>
      match eatTwoDigits l2 with
      | none => none
      | some (mm, l3) =>
        match eatLit [':'] l3 with
        | none => none
        | some l4 =>
          match eatTwoDigits l4 with
          | none => none
          | some (ss, l5) => some (hh ++ ':' :: mm ++ ':' :: ss, l5)

/-- `\sby\s(?<host>[^\s]+)\s君`: the greedy host run stops at the first
whitespace. -/
def eatByHost (l : List Char) : Option (List Char × List Char) :=
  match eatOne jsIsSpace l with
  | none => none
  | some (_, l1) =>
    match eatLit ['b', 'y'] l1 with
    | none => none
    | some l2 =>
      match eatOne jsIsSpace l2 with
      | none => none
      | some (_, l3) =>
        let host := l3.takeWhile (fun c => !jsIsSpace c)
        if host = [] then none
        else
          match eatOne jsIsSpace (l3.drop host.length) with
          | none => none
          | some (_, l4) =>
            match eatLit ['君'] l4 with
            | none => none
            | some l5 => some (host, l5)

/-- `(\s(?<self>〈＊あなた様＊〉))?\)\s<<` — the optional group is greedy,
but its first character (a whitespace) and the following `)` are
mutually exclusive, so no backtracking is needed. -/
def eatTail (l : List Char) : Option (Bool × List Char) :=
  let cont := fun (self : Bool) (l1 : List Char) =>
    match eatLit [')'] l1 with
    | none => none
    | some l2 =>
      match eatOne jsIsSpace l2 with
      | none => none
      | some (_, l3) =>
        match eatLit ['<', '<'] l3 with
        | none => none
        | some l4 => some (self, l4)
  match eatOne jsIsSpace l with
  | some (_, l1) =>
    match eatLit ['〈', '＊', 'あ', 'な', 'た', '様', '＊', '〉'] l1 with
    | some l2 => cont true l2
    | none => none
  | none => cont false l

/-- `\s-\s` between `チャット放話` and the date. -/
def eatDash (l : List Char) : Option (List Char) :=
  match eatOne jsIsSpace l with
  | none => none
  | some (_, l1) =>
    match eatLit ['-'] l1 with
    | none => none
    | some l2 =>
      match eatOne jsIsSpace l2 with
      | none => none
      | some (_, l3) => some l3

/-- Try to match `Bot.MessageRE` at the head of the input.  Every greedy
sub-pattern of this expression runs to a forced boundary (`[^」]+` up to
the first `」`, `[^)]+` up to the first `)`, `[^\s]+` up to the first
whitespace), so the match is computed without backtracking.  On
success, returns the record and the rest of the input after the
match. -/
def tryMessage (l : List Char) : Option (Msg × List Char) :=
  match eatHead l with
  | none => none
  | some l1 =>
    match eatMsg l1 with
    | none => none
    | some (msgChars, l2) =>
      match eatLit ['(', 'チ', 'ャ', 'ッ', 'ト', '放', '話'] l2 with
      | none => none
      | some l3 =>
        match eatDash l3 with
        | none => none
        | some l4 =>
          match eatDate l4 with
          | none => none
          | some (dateChars, l5) =>
            match eatOne jsIsSpace l5 with
            | none => none
            | some (_, l6) =>
              match eatTime l6 with
              | none => none
              | some (timeChars, l7) =>
                match eatByHost l7 with
                | none => none
                | some (hostChars, l8) =>
                  match eatTail l8 with
                  | none => none
                  | some (self, rest) =>
                    some (⟨String.mk (l.take (l.length - rest.length)),
                           String.mk msgChars, String.mk dateChars,
                           String.mk timeChars, String.mk hostChars, self⟩, rest)

/-- `matchAll`: scan left to right; at each position try the pattern, on
success yield the record and continue after it, otherwise advance one
character.  The fuel is the input length; a successful match always
consumes at least one character, so the fuel never runs out. -/
def extractAux : Nat → List Char → List Msg
  | 0, _ => []
  | _, [] => []
  | fuel + 1, l =>
    match tryMessage l with
    | some (m, rest) => m :: extractAux fuel rest
    | none =>
      match l with
      | [] => []
      | _ :: t => extractAux fuel t

/-- All matches of `Bot.MessageRE` in the text, in document order. -/
def extract (s : String) : List Msg :=
  extractAux s.toList.length s.toList

/-- `replaceAll(/\r?\n/g, '')`: strip every newline together with an
immediately preceding carriage return. -/
def stripBreaks : List Char → List Char
  | [] => []
  | '\r' :: '\n' :: t => stripBreaks t
  | '\n' :: t => stripBreaks t
  | c :: t => c :: stripBreaks t

/-- The framing step of `Bot.acceptKoukoku`: a chunk is processed only
when the configured threshold is strictly less than its byte length;
the decoded text is stripped of line breaks and every `Bot.MessageRE`
occurrence is extracted in document order. -/
def frame (threshold : Nat) (data : String) : List Msg :=
  if threshold < data.utf8ByteSize then
    extract (String.mk (stripBreaks data.toList))
  else
    []

/-! ## Anchored command patterns (`Bot.CalcRE` … `Bot.UserKeywordRE`) -/

/-- The named capture groups appearing across the command patterns; a
group that is not part of a pattern, or did not participate in its
match, is `none` (JavaScript `undefined`). -/
structure Groups where
  command : Option String := none
  name : Option String := none
  value : Option String := none
  expr : Option String := none
  body : Option String := none
  lang : Option String := none
  text : Option String := none
  count : Option String := none
deriving DecidableEq, Repr

/-- First successful alternative, in trial order. -/
def firstSome {α β : Type} (f : α → Option β) : List α → Option β
  | [] => none
  | a :: t =>
    match f a with
    | some b => some b
    | none => firstSome f t

/-- The character class of `Bot.CalcRE`:
`[πEIPaceginopstx\d\s.+\-*/%()]`. -/
def calcChar (c : Char) : Bool :=
  c ∈ ['π', 'E', 'I', 'P', 'a', 'c', 'e', 'g', 'i', 'n', 'o', 'p', 's', 't', 'x'] ||
  jsIsDigit c || jsIsSpace c || c ∈ ['.', '+', '-', '*', '/', '%', '(', ')']

/-- `Bot.CalcRE = /^計算\s(?<expr>[πEIPaceginopstx\d\s.+\-*/%()]+)$/`. -/
def calcMatch (s : String) : Option Groups :=
  match eatLit ['計', '算'] s.toList with
  | none => none
  | some l1 =>
    match eatOne jsIsSpace l1 with
    | none => none
    | some (_, l2) =>
      if l2 ≠ [] ∧ l2.all calcChar then some { expr := some (String.mk l2) } else none

/-- `Bot.DialogueRE = /^対話\s(?<body>.+)$/`. -/
def dialogueMatch (s : String) : Option Groups :=
  match eatLit ['対', '話'] s.toList with
  | none => none
  | some l1 =>
    match eatOne jsIsSpace l1 with
    | none => none
    | some (_, l2) =>
      if l2 ≠ [] ∧ l2.all jsIsDot then some { body := some (String.mk l2) } else none

/-- `Bot.HelpRE = /^(?<command>コマンド(リスト)?|ヘルプ)$/`. -/
def helpMatch (s : String) : Option Groups :=
  if s = "コマンド" ∨ s = "コマンドリスト" ∨ s = "ヘルプ" then
    some { command := some s }
  else none

/-- `Bot.LogRE = /^(バック)?ログ(\s+((?<command>--help)|(?<count>[1-9]\d*)))?$/`.
The `\s+` run cannot be shortened by backtracking (neither alternative
starts with a whitespace-class character), so the greedy run is
final. -/
def logMatch (s : String) : Option Groups :=
  let afterBack :=
    match eatLit ['バ', 'ッ', 'ク'] s.toList with
    | some l1 => l1
    | none => s.toList
  match eatLit ['ロ', 'グ'] afterBack with
  | none => none
  | some l2 =>
    if l2 = [] then some {}
    else
      let ws := l2.takeWhile jsIsSpace
      let r := l2.drop ws.length
      if ws = [] then none
      else if r = "--help".toList then some { command := some "--help" }
      else
        match r with
        | [] => none
        | c :: t =>
          if ('1' ≤ c ∧ c ≤ '9') ∧ t.all jsIsDigit then
            some { count := some (String.mk r) }
          else none

/-- `Bot.TallyRE = /^集計(\s(?<command>--help))?$/`. -/
def tallyMatch (s : String) : Option Groups :=
  match eatLit ['集', '計'] s.toList with
  | none => none
  | some l1 =>
    if l1 = [] then some {}
    else
      match eatOne jsIsSpace l1 with
      | none => none
      | some (_, l2) =>
        if l2 = "--help".toList then some { command := some "--help" } else none

/-- ASCII-folding lower-case comparison, for the `/i` flag. -/
def eqCI (a b : List Char) : Bool :=
  a.map Char.toLower = b.map Char.toLower

/-- The two-letter target-language alternatives of `Bot.TranslateRE`
(the source lists each code twice; the repetition has no effect on
matching). -/
def langCodes : List String :=
  ["bg", "cs", "da", "de", "el", "en", "es", "et", "fi", "fr", "hu", "id",
   "it", "ja", "ko", "lt", "lv", "nb", "nl", "pl", "pt", "ro", "ru", "sk",
   "sl", "sv", "tr", "uk", "zh"]

/-- The remainders of `l` after consuming `k` leading whitespace
characters, for `k` from the maximal run down to 1 — the trial order of
a greedy `\s+`. -/
def wsSplits (l : List Char) : List (List Char) :=
  let run := (l.takeWhile jsIsSpace).length
  (List.range run).map fun i => l.drop (run - i)

/-- The `((?<lang>…)\s+)?(?<text>.+)` part of `Bot.TranslateRE`, tried at
one fixed point of the input: first with a language code (whose
trailing `\s+` is itself tried greedily), then without. -/
def translateTextPart (r : List Char) : Option Groups :=
  let noLang : Option Groups :=
    if r ≠ [] ∧ r.all jsIsDot then some { text := some (String.mk r) } else none
  match r with
  | c1 :: c2 :: r2 =>
    if (langCodes.map String.toList).contains ([c1, c2].map Char.toLower) then
      match
        firstSome
          (fun rest =>
            if rest ≠ [] ∧ rest.all jsIsDot then
              some { lang := some (String.mk [c1, c2]), text := some (String.mk rest) }
            else none)
          (wsSplits r2)
      with
      | some g => some g
      | none => noLang
    else noLang
  | _ => noLang

/-- `Bot.TranslateRE` (flag `/i`):
`/^翻訳\s+((?<command>--(help|lang))|((?<lang>bg|cs|…|zh)\s+)?(?<text>.+))$/i`. -/
def translateMatch (s : String) : Option Groups :=
  match eatLit ['翻', '訳'] s.toList with
  | none => none
  | some l1 =>
    firstSome
      (fun r =>
        if eqCI r "--help".toList ∨ eqCI r "--lang".toList then
          some { command := some (String.mk r) }
        else translateTextPart r)
      (wsSplits l1)

/-- `\p{scx=Hiragana}`, by its principal block. -/
def isHiragana (c : Char) : Bool :=
  0x3041 ≤ c.toNat && c.toNat ≤ 0x309f

/-- `\p{scx=Katakana}`, by its principal block. -/
def isKatakana (c : Char) : Bool :=
  (0x30a1 ≤ c.toNat && c.toNat ≤ 0x30ff) || (0x31f0 ≤ c.toNat && c.toNat ≤ 0x31ff)

/-- `\p{scx=Han}`, by its principal blocks. -/
def isHan (c : Char) : Bool :=
  (0x4e00 ≤ c.toNat && c.toNat ≤ 0x9fff) || (0x3400 ≤ c.toNat && c.toNat ≤ 0x4dbf) ||
  (0xf900 ≤ c.toNat && c.toNat ≤ 0xfaff)

/-- `\p{scx=Common}`, restricted to the repertoire relevant here: ASCII
and the CJK symbols-and-punctuation block. -/
def isCommonScript (c : Char) : Bool :=
  c.toNat < 0x80 || (0x3000 ≤ c.toNat && c.toNat ≤ 0x3004) ||
  (0x3008 ≤ c.toNat && c.toNat ≤ 0x3020) || c.toNat = 0x30fb

/-- The name character class of `Bot.UserKeywordRE`:
`[\p{scx=Hiragana}\p{scx=Katakana}\p{scx=Han}\w]`. -/
def nameChar (c : Char) : Bool :=
  isHiragana c || isKatakana c || isHan c || jsIsWord c

/-- The value character class of `Bot.UserKeywordRE`:
`[\p{scx=Common}\p{scx=Hiragana}\p{scx=Katakana}\p{scx=Han}\s\w\x21-\x2f\x3a-\x40\x5b-\x60\x7b-\x7e]`. -/
def valueChar (c : Char) : Bool :=
  isCommonScript c || isHiragana c || isKatakana c || isHan c || jsIsSpace c ||
  jsIsWord c || (0x21 ≤ c.toNat && c.toNat ≤ 0x2f) ||
  (0x3a ≤ c.toNat && c.toNat ≤ 0x40) || (0x5b ≤ c.toNat && c.toNat ≤ 0x60) ||
  (0x7b ≤ c.toNat && c.toNat ≤ 0x7e)

/-- The name alternatives `(--help|[…]{1,8})` at a fixed point of the
input, in trial order: the literal `--help` first, then the greedy
bounded repetition from 8 characters down to 1.  Yields
`(name, remainder)` candidates. -/
def nameCands (l : List Char) : List (String × List Char) :=
  let litCand :=
    match eatLit ['-', '-', 'h', 'e', 'l', 'p'] l with
    | some rest => [("--help", rest)]
    | none => []
  let run := min ((l.takeWhile nameChar).length) 8
  litCand ++ (List.range run).map fun i =>
    (String.mk (l.take (run - i)), l.drop (run - i))

/-- The trailing `(\s(?<value>[…]+))?$` of `Bot.UserKeywordRE`: the value
alternative runs to the end of the input, so the group succeeds exactly
when a single whitespace is followed by a non-empty all-class
remainder; otherwise the group is skipped and the input must be
exhausted. -/
def valueEnd (g : Groups) (l : List Char) : Option Groups :=
  match l with
  | [] => some g
  | c :: t =>
    if jsIsSpace c ∧ t ≠ [] ∧ t.all valueChar then
      some { g with value := some (String.mk t) }
    else none

/-- The `(\s(?<name>…))?` group of `Bot.UserKeywordRE` and everything
after it: try each name candidate (group taken, greedy) and then the
group skipped. -/
def nameEnd (g : Groups) (l : List Char) : Option Groups :=
  let withName : Option Groups :=
    match l with
    | [] => none
    | c :: t =>
      if jsIsSpace c then
        firstSome (fun p => valueEnd { g with name := some p.1 } p.2) (nameCands t)
      else none
  match withName with
  | some g' => some g'
  | none => valueEnd g l

/-- `Bot.UserKeywordRE` (flag `/u`):
`/^キーワード(?<command>一覧|登録|解除)?(\s(?<name>(--help|[…]{1,8})))?(\s(?<value>[…]+))?$/u`. -/
def userKeywordMatch (s : String) : Option Groups :=
  match eatLit ['キ', 'ー', 'ワ', 'ー', 'ド'] s.toList with
  | none => none
  | some l1 =>
    let commandCands : List (Option String × List Char) :=
      (firstSome
        (fun c =>
          match eatLit c.toList l1 with
          | some rest => some [(some c, rest)]
          | none => none)
        ["一覧", "登録", "解除"]).getD []
      ++ [(none, l1)]
    firstSome (fun p => nameEnd { command := p.1 } p.2) commandCands

/-! ## Effects, environment and bot state

Asynchronous handlers are modelled as functions
`BotState → … → Except String (BotState × List Eff)`: a thrown exception
is `Except.error` carrying the message, and the returned list is the
trace of the external operations the handler initiates, in source
order.  The trace also records the dispatch coordinator's calls into the
router and the keyword engine, so that the sequencing contracts can be
stated observationally. -/

/-- One external operation. -/
inductive Eff
  /-- `sendAsync`: a user-visible reply through the proxy. -/
  | send (text : String)
  /-- `db.xAdd`: append one raw text to the persisted log. -/
  | persist (text : String)
  /-- `web.broadcastAsync`: push a record to the viewer channel. -/
  | broadcast (log : Log)
  /-- `createSpeechFromFileAsync`: read a template file and publish it as
  a speech (collapsed into one external operation). -/
  | speechFromFile (path : String)
  /-- `createSpeechAsync`: upload the content as a gist. -/
  | createSpeech (content : String)
  /-- The dispatch coordinator calling `handleCanonicalCommandsAsync`. -/
  | routerInvoked (text : String)
  /-- The dispatch coordinator calling `testUserKeywordsAsync`. -/
  | keywordsInvoked (text : String)
deriving DecidableEq, Repr

/-- One DeepL translation result item. -/
structure Translation where
  text : String
  detectedSourceLanguage : String
deriving DecidableEq, Repr

/-- The outcome of `DeepL.translateAsync`. -/
inductive DeepLResult
  | success (translations : List Translation)
  | failure (message : String)
deriving DecidableEq, Repr

/-- The external collaborators and the evaluation moment, supplied as
pure oracles: expression evaluation (`new Function`), DeepL, the
dialogue model, URI decoding, the Shift-JIS escaper, the language-name
table, the clock (weekday, start-of-year epoch and the locale-formatted
date/time parts), gist uploading and the ignore-pattern filter. -/
structure Env where
  evalExpr : String → Except String String
  deepl : String → Option String → DeepLResult
  speak : String → Except String String
  decodeUri : String → String
  sjisEscape : String → String
  langName : String → Option String
  nowDateStr : String
  nowTimeH : String
  nowTimeM : String
  nowTimeS : String
  nowDay : Nat
  yearEpochMs : Int
  githubOk : Bool
  speechUrl : String
  speechExpiresStr : String
  shouldBeIgnoredFn : Msg → Bool

/-- The bot's mutable state: the recency cache, the keyword hash of the
external store (`hGetAll`-visible content, in field order) and the
mirrored keyword name set. -/
structure BotState where
  recent : RecentCache
  keywordsDb : List (String × String)
  userKeywords : List String
deriving DecidableEq, Repr

/-- JavaScript string interpolation of a possibly-`undefined` group. -/
def jsStr (o : Option String) : String :=
  o.getD "undefined"

/-- The speech object returned by `createSpeechAsync`, as seen by its
callers: the raw gist URL and the formatted expiry time. -/
structure SpeechM where
  url : String
  expiresStr : String

/-- `Bot.createSpeechAsync`: upload the content; on success optionally
announce the URL, on failure report; the returned speech is `none`
exactly when the upload failed. -/
def createSpeechAsync (env : Env) (text : String) (remark : Bool) :
    Option SpeechM × List Eff :=
  if env.githubOk then
    (some ⟨env.speechUrl, env.speechExpiresStr⟩,
     Eff.createSpeech text :: if remark then [Eff.send env.speechUrl] else [])
  else
    (none, [Eff.createSpeech text, Eff.send "[Bot] 大演説の生成に失敗しました"])

/-- One step of `replaceAll(/(\*+[-.]?)+/g, '')`: consume one `\*+[-.]?`
group (the input is known to start with `*`). -/
def chompGroup (l : List Char) : List Char :=
  let stars := l.takeWhile (· = '*')
  let r := l.drop stars.length
  match r with
  | '-' :: t => t
  | '.' :: t => t
  | _ => r

/-- The scan of `replaceAll(/(\*+[-.]?)+/g, '')`: at a `*`, greedily
consume `\*+[-.]?` groups; otherwise keep the character.  The fuel is
the input length; each step consumes at least one character. -/
def maskAux : Nat → List Char → List Char
  | 0, l => l
  | _ + 1, [] => []
  | fuel + 1, c :: t =>
    if c = '*' then maskAux fuel (chompGroup (c :: t)) else c :: maskAux fuel t

/-- The host-masking transform `replaceAll(/(\*+[-.]?)+/g, '')` applied
to host names before display. -/
def maskHost (s : String) : String :=
  String.mk (maskAux s.toList.length s.toList)

/-! ## Tally engine (`tallyWeekly`, `tally`, `tallyAsync`) -/

/-- The week bucket of a record at the evaluation moment: parse the
millisecond timestamp from the id prefix before `-` (`parseInt` of
`id.split('-')[0]`; every store id is decimal-millisecond prefixed),
take the floored
number of days since the start of the current year, and compute
`Math.ceil((now.getDay() + 1 + numberOfDays) / 7)`
(with `Math.ceil(x) = -Math.floor(-x)`). -/
def parseIdMillis (id : String) : Nat :=
  (id.toList.takeWhile (· ≠ '-')).foldl (fun n c => n * 10 + (c.toNat - 48)) 0

def weekOf (day : Nat) (epoch : Int) (id : String) : Int :=
  let timestamp : Int := (parseIdMillis id : Nat)
  let numberOfDays := (timestamp - epoch).fdiv 86400000
  let ceiled : Int := -((-((day : Int) + 1 + numberOfDays)).fdiv 7)
  ceiled

/-- The nested map built by `tallyWeekly`: week number → host → the
record matches, all in insertion order. -/
def Weekly : Type :=
  List (Int × List (String × List Msg))

/-- The body of `tallyWeekly`'s inner loop: push the match onto its
week's host list. -/
def tallyInsert (day : Nat) (epoch : Int) (w : Weekly) (id : String) (m : Msg) : Weekly :=
  let week := weekOf day epoch id
  let hosts := (alGet week w).getD []
  let lst := (alGet m.host hosts).getD []
  alSet week (alSet m.host (lst ++ [m]) hosts) w

/-- `Bot.tallyWeekly`: re-extract every cached record's text and bucket
each match by week and origin host. -/
def tallyWeekly (day : Nat) (epoch : Int) (recentList : List Log) : Weekly :=
  recentList.foldl
    (fun w item =>
      (extract item.message.log).foldl
        (fun w2 m => tallyInsert day epoch w2 item.id m) w)
    []

/-- The comparator `descending` (as the order relation a stable
comparator sort realizes): numerically larger weeks first. -/
def descending (lhs rhs : Int) : Prop :=
  rhs ≤ lhs

instance : DecidableRel descending :=
  fun a b => Int.decLe b a

/-- The comparator `descendingByFrequency` (as the order relation a
stable comparator sort realizes): hosts with more matches first, ties
kept in table iteration order by stability. -/
def freqGe (a b : String × List Msg) : Prop :=
  b.2.length ≤ a.2.length

instance : DecidableRel freqGe :=
  fun a b => Nat.decLe b.2.length a.2.length

instance : IsTotal Int descending :=
  ⟨fun a b => le_total b a⟩

instance : IsTrans Int descending :=
  ⟨fun _ _ _ hab hbc => le_trans hbc hab⟩

instance : IsTotal (String × List Msg) freqGe :=
  ⟨fun a b => le_total b.2.length a.2.length⟩

instance : IsTrans (String × List Msg) freqGe :=
  ⟨fun _ _ _ hab hbc => le_trans hbc hab⟩

/-- One section of `Bot.tally`'s loop body: look the week up in the map
(`weekly.get(undefined)` when the week index is past the sorted key
list), crash with a `TypeError` when absent — `hosts.size` on
`undefined` — and otherwise emit the header line and the top five hosts
by descending frequency (a stable sort, ties in insertion order). -/
def tallySection (weekly : Weekly) (name : String) (wk : Option Int) :
    Except String (List String) :=
  match wk.bind (fun w => alGet w weekly) with
  | none => .error "TypeError: Cannot read properties of undefined (reading 'size')"
  | some hosts =>
    .ok (("[Bot] " ++ name ++ "週の逆引きホスト名で区別可能なクライアントの数は " ++
          toString hosts.length ++ " で、発言回数の多かったものは次の通りです") ::
      ((hosts.insertionSort freqGe).map
        (fun e => "[Bot] " ++ maskHost e.1 ++ " " ++ toString e.2.length ++ " 回")).take 5)

/-- `Bot.tally`: bucket the cache, sort the week numbers descending and
report the first two ("this week", "last week"). -/
def tally (env : Env) (st : BotState) : Except String (List String) :=
  let weekly := tallyWeekly env.nowDay env.yearEpochMs st.recent.list
  let weeks := (weekly.map Prod.fst).insertionSort descending
  match tallySection weekly "今" weeks[0]? with
  | .error e => .error e
  | .ok l1 =>
    match tallySection weekly "先" weeks[1]? with
    | .error e => .error e
    | .ok l2 => .ok (l1 ++ l2)

/-- `Bot.tallyAsync`: the timestamp header, a blank line, the tally body,
published as a speech.  A failure inside `tally` propagates — there is
no catch on this path. -/
def tallyAsync (env : Env) (st : BotState) (_g : Groups) :
    Except String (BotState × List Eff) :=
  match tally env st with
  | .error e => .error e
  | .ok body =>
    let header := "[Bot] " ++ env.nowDateStr ++ env.nowTimeH ++ "時" ++
      env.nowTimeM ++ "分" ++ env.nowTimeS ++ "秒時点の集計結果"
    let (_, effs) := createSpeechAsync env (String.intercalate "\n" (header :: "" :: body)) true
    .ok (st, effs)

/-! ## Command handlers -/

/-- `Bot.calculateAsync`: validate, then evaluate in the restricted
scope; the whole body is wrapped in `try`/`catch`, so both validation
and evaluation failures become a `計算エラー` reply and the handler
itself never throws. -/
def calculateAsync (env : Env) (st : BotState) (g : Groups) :
    Except String (BotState × List Eff) :=
  let expr := jsStr g.expr
  let result : Except String String := do
    validateParentheses expr
    env.evalExpr expr
  match result with
  | .ok value => .ok (st, [Eff.send ("[Bot] 計算結果は" ++ value ++ "です")])
  | .error m => .ok (st, [Eff.send ("[Bot] 計算エラー, " ++ m)])

/-- `Bot.dialogueAsync`: translate to English, talk to the dialogue
model, translate its answer back; each failure becomes a reply. -/
def dialogueAsync (env : Env) (st : BotState) (g : Groups) :
    Except String (BotState × List Eff) :=
  match env.deepl (jsStr g.body) (some "EN") with
  | .failure m => .ok (st, [Eff.send ("[Bot] 翻訳エラー, " ++ m)])
  | .success ts =>
    match env.speak (ts.headD ⟨"undefined", ""⟩).text with
    | .error m => .ok (st, [Eff.send ("[Bot] 対話中にエラーが発生しました, " ++ m)])
    | .ok response =>
      match env.deepl response (some "JA") with
      | .failure m => .ok (st, [Eff.send ("[Bot] 翻訳エラー, " ++ m)])
      | .success ts2 =>
        .ok (st, [Eff.send ("[Bot] " ++
          String.mk (stripBreaks (ts2.headD ⟨"undefined", ""⟩).text.toList))])

/-- `Bot.describeGeneralHelp`. -/
def describeGeneralHelp (_env : Env) (st : BotState) (_g : Groups) :
    Except String (BotState × List Eff) :=
  .ok (st, [Eff.speechFromFile "templates/help.txt"])

/-- `isNotBot`. -/
def isNotBot (m : Msg) : Bool :=
  !(m.msg.startsWith "[Bot] ")

/-- `isNotTimeSignal`. -/
def isNotTimeSignal (m : Msg) : Bool :=
  !(m.msg.startsWith "[時報] ")

/-- `selectBodyOfLog`.  Modelled from the spec: the function is imported
from a module that is not among the provided sources; per the data
model, it selects the record's raw text from the log entry. -/
def selectBodyOfLog (l : Log) : String :=
  l.message.log

/-- `parseIntOr` (the `count` group is `[1-9]\d*`, so decimal parsing of
the whole string is exact). -/
def parseIntOr (text : Option String) (defaultValue : Nat) : Nat :=
  match text with
  | none => defaultValue
  | some s => s.toNat?.getD defaultValue

/-- One step of `composeLog`'s duplicate suppression over the `last`
record: a host or message equal to the previous one is displayed as
`〃`. -/
def composeLogStep (last : Option String × Option String) (m : Msg) :
    (Option String × Option String) × String :=
  let ch := maskHost m.host
  let cm := jsTrim m.msg
  let (shownH, lastH) := if some ch = last.1 then ("〃", last.1) else (ch, some ch)
  let (shownM, lastM) := if some cm = last.2 then ("〃", last.2) else (cm, some cm)
  ((lastH, lastM), String.intercalate " " [m.date, m.time, shownM, shownH])

/-- The `composeLog` fold over the extracted matches, in order. -/
def composeLogs (last : Option String × Option String) : List Msg → List String
  | [] => []
  | m :: rest =>
    let (last', text) := composeLogStep last m
    text :: composeLogs last' rest

/-- `Bot.locateLogsAsync`: `--help` goes to the template; otherwise
re-extract each cached record's body, drop bot and time-signal
messages, compose display lines and publish the first
`min(count ?? 10, 30)` as a speech. -/
def locateLogsAsync (env : Env) (st : BotState) (g : Groups) :
    Except String (BotState × List Eff) :=
  if g.command.isSome then
    .ok (st, [Eff.speechFromFile ("templates/log/" ++ ((jsStr g.command).drop 2).toLower ++ ".txt")])
  else
    let ms := st.recent.list.flatMap fun item =>
      ((extract (selectBodyOfLog item)).filter isNotBot).filter isNotTimeSignal
    let contents := composeLogs (none, none) ms
    let chosen := contents.take (min (parseIntOr g.count 10) 30)
    let (_, effs) := createSpeechAsync env (String.intercalate "\n" chosen) true
    .ok (st, effs)

/-- `Bot.describeTallyHelp`. -/
def describeTallyHelp (_env : Env) (st : BotState) (_g : Groups) :
    Except String (BotState × List Eff) :=
  .ok (st, [Eff.speechFromFile "templates/tally/help.txt"])

/-- `Bot.handleTallyCommandAsync`: `--help` vs. the tally itself. -/
def handleTallyCommandAsync (env : Env) (st : BotState) (g : Groups) :
    Except String (BotState × List Eff) :=
  if g.command = some "--help" then describeTallyHelp env st g else tallyAsync env st g

/-- `Bot.describeTranslation`. -/
def describeTranslation (_env : Env) (st : BotState) (g : Groups) :
    Except String (BotState × List Eff) :=
  .ok (st, [Eff.speechFromFile
    ("templates/translation/" ++ ((jsStr g.command).drop 2).toLower ++ ".txt")])

/-- The scan of `replaceAll(/(\s+%|\s+%\s+|%\s+)/g, '%')`: a whitespace
run directly before a `%`, or a `%` directly before a whitespace run,
collapses to `%` (the middle alternative is shadowed by the first). -/
def replacePercentAux : Nat → List Char → List Char
  | 0, l => l
  | _ + 1, [] => []
  | fuel + 1, c :: t =>
    let ws := (c :: t).takeWhile jsIsSpace
    let r := (c :: t).drop ws.length
    if ws ≠ [] ∧ r.headD ' ' = '%' then
      '%' :: replacePercentAux fuel (r.drop 1)
    else if c = '%' ∧ (t.takeWhile jsIsSpace) ≠ [] then
      '%' :: replacePercentAux fuel (t.drop (t.takeWhile jsIsSpace).length)
    else
      c :: replacePercentAux fuel t

/-- `replaceAll(/(\s+%|\s+%\s+|%\s+)/g, '%')` on the translation
payload. -/
def replacePercent (s : String) : String :=
  String.mk (replacePercentAux s.toList.length s.toList)

/-- `Bot.translateAsync`: normalize the `%` spacing, URI-decode, call
DeepL with the optional target language; an error result becomes one
reply, a success one reply per translation, each stripped of line
breaks, trimmed and Shift-JIS escaped. -/
def translateAsync (env : Env) (st : BotState) (g : Groups) :
    Except String (BotState × List Eff) :=
  let text := replacePercent (jsStr g.text)
  let toLang := match g.lang.bind env.langName with
    | some n => n ++ "に"
    | none => ""
  match env.deepl (env.decodeUri text) g.lang with
  | .failure m => .ok (st, [Eff.send ("[Bot] 翻訳エラー, " ++ m)])
  | .success ts =>
    .ok (st, ts.map fun t =>
      Eff.send ("[Bot] (" ++ jsStr (env.langName t.detectedSourceLanguage) ++ "から" ++
        toLang ++ "翻訳) " ++ env.sjisEscape (jsTrim (String.mk (stripBreaks t.text.toList)))))

/-- `Bot.translateOrDescribeAsync` (the source starts the inner call
without awaiting it; its effects are modelled in order). -/
def translateOrDescribeAsync (env : Env) (st : BotState) (g : Groups) :
    Except String (BotState × List Eff) :=
  if g.command.isSome then describeTranslation env st g else translateAsync env st g

/-- `Bot.describeUserKeywordAsync`. -/
def describeUserKeywordAsync (_env : Env) (st : BotState) (_g : Groups) :
    Except String (BotState × List Eff) :=
  .ok (st, [Eff.speechFromFile "templates/keyword/help.txt"])

/-- `Bot.createUserKeywordsSpeechAsync`: the dated header, a blank line
and one `key => value` line per keyword; short lists are announced
directly, long ones are published quietly and referenced by URL (a
failed upload then crashes on `speech.expiresAt`). -/
def createUserKeywordsSpeechAsync (env : Env) (st : BotState) (command : String)
    (keywords : List (String × String)) : Except String (BotState × List Eff) :=
  let header := env.nowDateStr ++ env.nowTimeH ++ "時" ++ env.nowTimeM ++ "分" ++
    env.nowTimeS ++ "秒時点で登録されているキーワードの一覧は以下の通りです"
  let list := header :: "" :: keywords.map fun e => e.1 ++ " => " ++ e.2
  if list.length ≤ 30 then
    let (_, effs) := createSpeechAsync env (String.intercalate "\n" list) true
    .ok (st, effs)
  else
    match createSpeechAsync env (String.intercalate "\n" list) false with
    | (none, _) => .error "TypeError: Cannot read properties of undefined (reading 'expiresAt')"
    | (some sp, effs) =>
      .ok (st, effs ++ [Eff.send ("[Bot] キーワード" ++ command ++ "を" ++ sp.url ++
        "に置きました,期限" ++ sp.expiresStr)])

/-- `Bot.listUserKeywordsAsync`: extra arguments are a syntax error; an
empty store is announced as such; otherwise the keyword list speech. -/
def listUserKeywordsAsync (env : Env) (st : BotState) (g : Groups) :
    Except String (BotState × List Eff) :=
  if g.name.isSome ∨ g.value.isSome then
    .ok (st, [Eff.send ("[Bot] キーワード" ++ jsStr g.command ++ "の構文が正しくありません")])
  else if st.keywordsDb.length = 0 then
    .ok (st, [Eff.send "[Bot] キーワードは登録されていません"])
  else
    createUserKeywordsSpeechAsync env st (jsStr g.command) st.keywordsDb

/-- `Bot.registerUserKeywordAsync`: with both a name and a value,
`hSetNX`; only a fresh registration updates the mirrored set.  Anything
else is a syntax error reply. -/
def registerUserKeywordAsync (_env : Env) (st : BotState) (g : Groups) :
    Except String (BotState × List Eff) :=
  match g.name, g.value with
  | some name, some value =>
    if (alGet name st.keywordsDb).isSome then
      .ok (st, [Eff.send ("[Bot] キーワード \"" ++ name ++ "\" は既に登録されています")])
    else
      .ok ({ st with
               keywordsDb := st.keywordsDb ++ [(name, value)],
               userKeywords := setAdd name st.userKeywords },
           [Eff.send ("[Bot] キーワード \"" ++ name ++ "\" を登録しました")])
  | _, _ =>
    .ok (st, [Eff.send ("[Bot] キーワード" ++ jsStr g.command ++ "の構文が正しくありません")])

/-- Remove a key from the keyword hash (`hDel`). -/
def alDel (k : String) : List (String × String) → List (String × String)
  | [] => []
  | (k', v') :: t => if k' = k then t else (k', v') :: alDel k t

/-- `Bot.unregisterUserKeywordAsync`: with a name and no value, `hDel`;
only a successful deletion updates the mirrored set. -/
def unregisterUserKeywordAsync (_env : Env) (st : BotState) (g : Groups) :
    Except String (BotState × List Eff) :=
  match g.name, g.value with
  | some name, none =>
    if (alGet name st.keywordsDb).isSome then
      .ok ({ st with
               keywordsDb := alDel name st.keywordsDb,
               userKeywords := st.userKeywords.erase name },
           [Eff.send ("[Bot] キーワード \"" ++ name ++ "\" を登録解除しました")])
    else
      .ok (st, [Eff.send ("[Bot] キーワード \"" ++ name ++ "\" は未登録です")])
  | _, _ =>
    .ok (st, [Eff.send ("[Bot] キーワード" ++ jsStr g.command ++ "の構文が正しくありません")])

/-- `Bot.determineUserKeywordCommandHandler`: the index trick
`[null, name, command, null][u * 2 + v]` with
`u = +(command !== undefined && command in template)` and
`v = +(command === undefined && name !== undefined)`. -/
def determineUserKeywordCommandHandler (g : Groups) (templateKeys : List String) :
    Option String :=
  let u : Nat := if (match g.command with
    | some c => templateKeys.contains c
    | none => false) then 1 else 0
  let v : Nat := if g.command = none ∧ g.name.isSome then 1 else 0
  [none, g.name, g.command, none].getD (u * 2 + v) none

/-- `Bot.handleUserKeywordCommandAsync`: select the sub-handler by the
determined key.  A `null` key is coerced by JavaScript's `in` to the
string `"null"`, which is not a key of the table, so nothing runs and
the handler returns silently. -/
def handleUserKeywordCommandAsync (env : Env) (st : BotState) (g : Groups) :
    Except String (BotState × List Eff) :=
  let templateKeys := ["--help", "一覧", "登録", "解除"]
  match determineUserKeywordCommandHandler g templateKeys with
  | none => .ok (st, [])
  | some k =>
    if k = "--help" then describeUserKeywordAsync env st g
    else if k = "一覧" then listUserKeywordsAsync env st g
    else if k = "登録" then registerUserKeywordAsync env st g
    else if k = "解除" then unregisterUserKeywordAsync env st g
    else .ok (st, [])

/-! ## Command router and dispatch coordinator -/

/-- One entry of the router's pattern table. -/
structure Entry where
  e : String → Option Groups
  f : BotState → Groups → Except String (BotState × List Eff)

/-- The pattern table of `handleCanonicalCommandsAsync`, in source
order. -/
def patternTable (env : Env) : List Entry :=
  [⟨calcMatch, calculateAsync env⟩,
   ⟨dialogueMatch, dialogueAsync env⟩,
   ⟨helpMatch, describeGeneralHelp env⟩,
   ⟨logMatch, locateLogsAsync env⟩,
   ⟨tallyMatch, handleTallyCommandAsync env⟩,
   ⟨translateMatch, translateOrDescribeAsync env⟩,
   ⟨userKeywordMatch, handleUserKeywordCommandAsync env⟩]

/-- The `for` loop of `handleCanonicalCommandsAsync`: every entry is
tested; a matching entry's handler is awaited (an exception propagates
out of the loop); `placeholder.matched` is overwritten with this entry's
match result on every iteration. -/
def routerLoop (text : String) :
    List Entry → BotState → List Eff → Bool → Except String (Bool × BotState × List Eff)
  | [], st, effs, m => .ok (m, st, effs)
  | a :: rest, st, effs, _ =>
    match a.e text with
    | some g =>
      match a.f st g with
      | .error err => .error err
      | .ok (st', effs') => routerLoop text rest st' (effs ++ effs') true
    | none => routerLoop text rest st effs false

/-- `Bot.handleCanonicalCommandsAsync`. -/
def handleCanonicalCommandsAsync (env : Env) (st : BotState) (text : String) :
    Except String (Bool × BotState × List Eff) :=
  routerLoop text (patternTable env) st [] false

/-- Substring test (`String.prototype.includes`). -/
def includesAux (n : List Char) : List Char → Bool
  | [] => n.isEmpty
  | c :: t => n.isPrefixOf (c :: t) || includesAux n t

/-- `hay.includes(needle)`. -/
def strIncludes (hay needle : String) : Bool :=
  includesAux needle.toList hay.toList

/-- `Bot.testUserKeywordsAsync`: if the record passes the ignore filter,
fetch and send the value of every mirrored keyword occurring in the
message body (a missing hash field prints as `null`). -/
def testUserKeywordsAsync (env : Env) (st : BotState) (m : Msg) : BotState × List Eff :=
  if env.shouldBeIgnoredFn m then (st, [])
  else
    (st,
     ((st.userKeywords.filter fun k => strIncludes m.msg k).map fun k =>
       Eff.send ("[Bot] " ++ ((alGet k st.keywordsDb).getD "null"))))

/-- The per-record body of `Bot.acceptKoukoku`'s loop: append to the
persisted log and the cache, broadcast, and — only for records that are
not self-authored — run the router, then, when its last-pattern-match
indicator is false, the keyword engine.  The trace records the two
sub-component calls (`routerInvoked`, `keywordsInvoked`) at the points
the source awaits them. -/
def processRecord (env : Env) (st : BotState) (freshId : String) (m : Msg) :
    Except String (BotState × List Eff) :=
  let (c', log) := appendLog st.recent freshId m.matched
  let st1 := { st with recent := c' }
  let base := [Eff.persist m.matched, Eff.broadcast log]
  if m.self then .ok (st1, base)
  else
    match handleCanonicalCommandsAsync env st1 m.msg with
    | .error e => .error e
    | .ok (matchedLast, st2, effs) =>
      if matchedLast then .ok (st2, base ++ Eff.routerInvoked m.msg :: effs)
      else
        let (st3, effs2) := testUserKeywordsAsync env st2 m
        .ok (st3, base ++ Eff.routerInvoked m.msg :: effs ++ Eff.keywordsInvoked m.msg :: effs2)

/-- The fold of `processRecord` over the extracted records of one chunk,
in extraction order; the fresh ids are the ones the persistence assigns
to the successive appends. -/
def processAll (env : Env) : BotState → List String → List Msg → Except String (BotState × List Eff)
  | st, _, [] => .ok (st, [])
  | st, ids, m :: rest =>
    match processRecord env st (ids.headD "") m with
    | .error e => .error e
    | .ok (st1, effs) =>
      match processAll env st1 ids.tail rest with
      | .error e => .error e
      | .ok (st2, effs2) => .ok (st2, effs ++ effs2)

/-- `Bot.acceptKoukoku`: frame the chunk (threshold guard, line-break
stripping, extraction) and process each record in order. -/
def acceptKoukoku (env : Env) (st : BotState) (threshold : Nat) (ids : List String)
    (data : String) : Except String (BotState × List Eff) :=
  processAll env st ids (frame threshold data)

/-! ## Specification-side definitions

Declarative restatements of the router's and the tally engine's
behaviour, against which the embedded operational definitions are
proved. -/

/-- The sequential run of the handlers of exactly the matching entries,
in table order, threading the state and concatenating the effect
traces; a handler's exception aborts the run. -/
def runMatching (text : String) : List Entry → BotState → Except String (BotState × List Eff)
  | [], st => .ok (st, [])
  | a :: rest, st =>
    match a.e text with
    | none => runMatching text rest st
    | some g =>
      match a.f st g with
      | .error e => .error e
      | .ok (st', effs) =>
        match runMatching text rest st' with
        | .error e => .error e
        | .ok (st'', effs2) => .ok (st'', effs ++ effs2)

/-- The value of the router's overwritten match flag after the remaining
entries, starting from `b`. -/
def lastMatchedFrom (text : String) (b : Bool) : List Entry → Bool
  | [] => b
  | a :: rest => lastMatchedFrom text ((a.e text).isSome) rest

/-- Whether an effect is one of the dispatch coordinator's call markers
(never produced by a handler). -/
def isMarker : Eff → Bool
  | .routerInvoked _ => true
  | .keywordsInvoked _ => true
  | _ => false

/-- No call marker in a trace. -/
def noMarkers (effs : List Eff) : Prop :=
  ∀ e ∈ effs, isMarker e = false

/-- The weekly bucket map at the evaluation moment. -/
def tallyWeeklyOf (env : Env) (st : BotState) : Weekly :=
  tallyWeekly env.nowDay env.yearEpochMs st.recent.list

/-- The week numbers, sorted descending, as `tally` computes them. -/
def tallyWeeksOf (env : Env) (st : BotState) : List Int :=
  ((tallyWeeklyOf env st).map Prod.fst).insertionSort descending

/-- Every (week, host, match) triple the tally traversal encounters, in
traversal order, with the week computed by the bucket formula. -/
def matchPairs (env : Env) (st : BotState) : List (Int × String × Msg) :=
  st.recent.list.flatMap fun item =>
    (extract item.message.log).map fun m =>
      (weekOf env.nowDay env.yearEpochMs item.id, m.host, m)

/-- The host table of one week bucket. -/
def hostsOf (env : Env) (st : BotState) (w : Int) : List (String × List Msg) :=
  (alGet w (tallyWeeklyOf env st)).getD []

/-- The matches recorded for one week and host. -/
def bucketList (env : Env) (st : BotState) (w : Int) (host : String) : List Msg :=
  (alGet host (hostsOf env st w)).getD []

/-- The host table of one week, stably sorted by descending frequency. -/
def hostsSorted (env : Env) (st : BotState) (w : Int) : List (String × List Msg) :=
  (hostsOf env st w).insertionSort freqGe

/-- The report section for one present week bucket: the distinct-host
count header and the top five hosts by descending frequency. -/
def tallyLines (env : Env) (st : BotState) (name : String) (w : Int) : List String :=
  ("[Bot] " ++ name ++ "週の逆引きホスト名で区別可能なクライアントの数は " ++
    toString (hostsOf env st w).length ++ " で、発言回数の多かったものは次の通りです") ::
  ((hostsSorted env st w).map
    (fun e => "[Bot] " ++ maskHost e.1 ++ " " ++ toString e.2.length ++ " 回")).take 5

/-- The `TypeError` thrown when `tally` dereferences the host map of an
absent week. -/
def tallyTypeError : String :=
  "TypeError: Cannot read properties of undefined (reading 'size')"

/-! ## Concrete fixtures for the closed evaluations -/

/-- A concrete environment: every external collaborator is a trivial
oracle; the evaluation moment is a Sunday at the start-of-year epoch 0. -/
def env0 : Env :=
  { evalExpr := fun _ => Except.error "ev"
    deepl := fun _ _ => .failure "d"
    speak := fun _ => .error "s"
    decodeUri := id
    sjisEscape := id
    langName := fun _ => none
    nowDateStr := "D"
    nowTimeH := "1"
    nowTimeM := "2"
    nowTimeS := "3"
    nowDay := 0
    yearEpochMs := 0
    githubOk := true
    speechUrl := "u"
    speechExpiresStr := "x"
    shouldBeIgnoredFn := fun _ => false }

/-- The empty bot state. -/
def st0 : BotState :=
  ⟨⟨[], [], []⟩, [], []⟩

/-- A non-self event record whose body is the bare keyword command
word. -/
def mKW : Msg :=
  ⟨"raw", "キーワード", "01/02 (x)", "03:04:05", "h", false⟩

/-- A raw feed text carrying one message by `hostA`. -/
def txtA : String :=
  ">> 「 hello 」(チャット放話 - 01/02 (x) 03:04:05 by hostA 君) <<"

/-- A raw feed text carrying one message by `hostB`. -/
def txtB : String :=
  ">> 「 world 」(チャット放話 - 01/02 (x) 03:04:05 by hostB 君) <<"

/-- A cache whose two records fall into two distinct week buckets at
`env0`'s evaluation moment (ids 0 ms and 7 days in milliseconds). -/
def stT : BotState :=
  ⟨⟨[⟨"604800000-0", ⟨txtB⟩⟩, ⟨"0-0", ⟨txtA⟩⟩], [], []⟩, [], []⟩

/-- A cache holding one record with id `2-0` and raw text `b`. -/
def cacheOne : RecentCache :=
  ⟨[⟨"2-0", ⟨"b"⟩⟩], [("2-0", ⟨"2-0", ⟨"b"⟩⟩)], ["b"]⟩

/-- A record older than everything in `cacheOne`, with fresh raw text. -/
def logOld : Log :=
  ⟨"1-0", ⟨"a"⟩⟩

/-- A chunk of exactly 70 UTF-8 bytes containing one complete framed
message. -/
def chunk70 : String :=
  ">> 「 aaaaaa 」(チャット放話 - 01/02 (x) 03:04:05 by h 君) <<"

/-- A chunk containing two complete framed messages. -/
def chunk2 : String :=
  txtA ++ "\r\n" ++ txtB

/-! ## Helper lemmas -/

theorem routerLoop_eq (text : String) (T : List Entry) :
    ∀ (st : BotState) (effs : List Eff) (b : Bool),
    routerLoop text T st effs b =
      match runMatching text T st with
      | .error e => .error e
      | .ok (st', effs') => .ok (lastMatchedFrom text b T, st', effs ++ effs') := by
  induction T with
  | nil =>
    intro st effs b
    simp [routerLoop, runMatching, lastMatchedFrom]
  | cons a rest ih =>
    intro st effs b
    rw [routerLoop, runMatching, lastMatchedFrom]
    cases h : a.e text with
    | none =>
      simp only [h]
      exact ih st effs false
    | some g =>
      simp only [h]
      cases hf : a.f st g with
      | error e => rfl
      | ok p =>
        obtain ⟨st1, e1⟩ := p
        dsimp only
        rw [ih st1 (effs ++ e1) true]
        cases hr : runMatching text rest st1 with
        | error e => rfl
        | ok q =>
          obtain ⟨st2, e2⟩ := q
          simp [List.append_assoc]

theorem lastMatchedFrom_eq (text : String) :
    ∀ (T : List Entry) (b : Bool),
    lastMatchedFrom text b T = ((T.getLast?).map fun a => (a.e text).isSome).getD b := by
  intro T
  induction T with
  | nil => intro b; simp [lastMatchedFrom]
  | cons a rest ih =>
    intro b
    cases rest with
    | nil => simp [lastMatchedFrom]
    | cons a2 r2 =>
      rw [lastMatchedFrom, ih ((a.e text).isSome), List.getLast?_cons_cons]
      have hs : ((a2 :: r2).getLast?).isSome := by
        rw [List.getLast?_isSome]
        exact List.cons_ne_nil a2 r2
      obtain ⟨x, hx⟩ := Option.isSome_iff_exists.mp hs
      rw [hx]
      rfl

theorem tally_empty (env : Env) (st : BotState) (h : st.recent.list = []) :
    tally env st = .error tallyTypeError := by
  rw [tally, h]
  rfl

theorem handleTally_empty (env : Env) (st : BotState) (h : st.recent.list = []) :
    handleTallyCommandAsync env st {} = .error tallyTypeError := by
  rw [handleTallyCommandAsync, if_neg (by simp), tallyAsync, tally_empty env st h]

theorem alGet_isSome_of_mem {α β : Type} [DecidableEq α] (k : α) :
    ∀ (l : List (α × β)), k ∈ l.map Prod.fst → (alGet k l).isSome := by
  intro l
  induction l with
  | nil => intro h; simp at h
  | cons p t ih =>
    obtain ⟨k', v'⟩ := p
    intro h
    rw [List.map_cons, List.mem_cons] at h
    rw [alGet]
    by_cases hk : k' = k
    · rw [if_pos hk]
      rfl
    · rw [if_neg hk]
      apply ih
      rcases h with h | h
      · exact absurd h.symm hk
      · exact h

theorem tallySection_of_get (weekly : Weekly) (name : String) (w : Int)
    (hosts : List (String × List Msg)) (hh : alGet w weekly = some hosts) :
    tallySection weekly name (some w) =
      .ok (("[Bot] " ++ name ++ "週の逆引きホスト名で区別可能なクライアントの数は " ++
            toString hosts.length ++ " で、発言回数の多かったものは次の通りです") ::
        ((hosts.insertionSort freqGe).map
          (fun e => "[Bot] " ++ maskHost e.1 ++ " " ++ toString e.2.length ++ " 回")).take 5) := by
  unfold tallySection
  rw [show ((some w).bind fun x => alGet x weekly) = some hosts from hh]

theorem tallySection_some_of_mem (weekly : Weekly) (name : String) (w : Int)
    (h : w ∈ (weekly.map Prod.fst : List Int)) :
    ∃ l, tallySection weekly name (some w) = .ok l := by
  obtain ⟨hosts, hh⟩ := Option.isSome_iff_exists.mp (alGet_isSome_of_mem w weekly h)
  exact ⟨_, tallySection_of_get weekly name w hosts hh⟩

theorem tally_eq_sections (env : Env) (st : BotState) : tally env st =
    match tallySection (tallyWeeklyOf env st) "今" (tallyWeeksOf env st)[0]? with
    | .error e => .error e
    | .ok l1 =>
      match tallySection (tallyWeeklyOf env st) "先" (tallyWeeksOf env st)[1]? with
      | .error e => .error e
      | .ok l2 => .ok (l1 ++ l2) := rfl

theorem weeks_perm (env : Env) (st : BotState) :
    (tallyWeeksOf env st).Perm ((tallyWeeklyOf env st).map Prod.fst) :=
  List.perm_insertionSort descending _

theorem noMarkers_nil : noMarkers [] := by
  intro e he
  cases he

theorem noMarkers_cons {a : Eff} {l : List Eff} (ha : isMarker a = false)
    (hl : noMarkers l) : noMarkers (a :: l) := by
  intro e he
  rcases List.mem_cons.mp he with h | h
  · rw [h]; exact ha
  · exact hl e h

theorem noMarkers_append {l1 l2 : List Eff} (h1 : noMarkers l1) (h2 : noMarkers l2) :
    noMarkers (l1 ++ l2) := by
  intro e he
  rcases List.mem_append.mp he with h | h
  · exact h1 e h
  · exact h2 e h

theorem noMarkers_speech (env : Env) (text : String) (remark : Bool) :
    noMarkers (createSpeechAsync env text remark).2 := by
  rw [createSpeechAsync]
  split
  · split
    · exact noMarkers_cons rfl (noMarkers_cons rfl noMarkers_nil)
    · exact noMarkers_cons rfl noMarkers_nil
  · exact noMarkers_cons rfl (noMarkers_cons rfl noMarkers_nil)

theorem speech_pair_nm (env : Env) (text : String) (remark : Bool)
    (sp : Option SpeechM) (e1 : List Eff)
    (h : createSpeechAsync env text remark = (sp, e1)) : noMarkers e1 := by
  have := noMarkers_speech env text remark
  rw [h] at this
  exact this

theorem calc_nm (env : Env) (st : BotState) (g : Groups) (st' : BotState) (effs : List Eff)
    (h : calculateAsync env st g = .ok (st', effs)) : noMarkers effs := by
  rw [calculateAsync] at h
  split at h <;>
  · simp only [Except.ok.injEq, Prod.mk.injEq] at h
    obtain ⟨-, h2⟩ := h
    subst h2
    exact noMarkers_cons rfl noMarkers_nil

theorem dialogue_nm (env : Env) (st : BotState) (g : Groups) (st' : BotState) (effs : List Eff)
    (h : dialogueAsync env st g = .ok (st', effs)) : noMarkers effs := by
  rw [dialogueAsync] at h
  split at h
  · simp only [Except.ok.injEq, Prod.mk.injEq] at h
    obtain ⟨-, h2⟩ := h
    subst h2
    exact noMarkers_cons rfl noMarkers_nil
  · split at h <;>
    first
    | · simp only [Except.ok.injEq, Prod.mk.injEq] at h
        obtain ⟨-, h2⟩ := h
        subst h2
        exact noMarkers_cons rfl noMarkers_nil
    | · split at h <;>
        · simp only [Except.ok.injEq, Prod.mk.injEq] at h
          obtain ⟨-, h2⟩ := h
          subst h2
          exact noMarkers_cons rfl noMarkers_nil

theorem helpG_nm (env : Env) (st : BotState) (g : Groups) (st' : BotState) (effs : List Eff)
    (h : describeGeneralHelp env st g = .ok (st', effs)) : noMarkers effs := by
  rw [describeGeneralHelp] at h
  simp only [Except.ok.injEq, Prod.mk.injEq] at h
  obtain ⟨-, h2⟩ := h
  subst h2
  exact noMarkers_cons rfl noMarkers_nil

theorem locate_nm (env : Env) (st : BotState) (g : Groups) (st' : BotState) (effs : List Eff)
    (h : locateLogsAsync env st g = .ok (st', effs)) : noMarkers effs := by
  rw [locateLogsAsync] at h
  split at h
  · simp only [Except.ok.injEq, Prod.mk.injEq] at h
    obtain ⟨-, h2⟩ := h
    subst h2
    exact noMarkers_cons rfl noMarkers_nil
  · dsimp only at h
    cases hcs : createSpeechAsync env
        (String.intercalate "\n"
          ((composeLogs (none, none)
            (st.recent.list.flatMap fun item =>
              ((extract (selectBodyOfLog item)).filter isNotBot).filter isNotTimeSignal)).take
            (min (parseIntOr g.count 10) 30))) true with
    | mk sp e1 =>
      rw [hcs] at h
      simp only [Except.ok.injEq, Prod.mk.injEq] at h
      obtain ⟨-, h2⟩ := h
      subst h2
      exact speech_pair_nm _ _ _ _ _ hcs

theorem tallyHelp_nm (env : Env) (st : BotState) (g : Groups) (st' : BotState) (effs : List Eff)
    (h : describeTallyHelp env st g = .ok (st', effs)) : noMarkers effs := by
  rw [describeTallyHelp] at h
  simp only [Except.ok.injEq, Prod.mk.injEq] at h
  obtain ⟨-, h2⟩ := h
  subst h2
  exact noMarkers_cons rfl noMarkers_nil

theorem tallyA_nm (env : Env) (st : BotState) (g : Groups) (st' : BotState) (effs : List Eff)
    (h : tallyAsync env st g = .ok (st', effs)) : noMarkers effs := by
  rw [tallyAsync] at h
  split at h
  · exact absurd h (by simp)
  · rename_i body hb
    dsimp only at h
    cases hcs : createSpeechAsync env
        (String.intercalate "\n"
          (("[Bot] " ++ env.nowDateStr ++ env.nowTimeH ++ "時" ++ env.nowTimeM ++ "分" ++
            env.nowTimeS ++ "秒時点の集計結果") :: "" :: body)) true with
    | mk sp e1 =>
      rw [hcs] at h
      simp only [Except.ok.injEq, Prod.mk.injEq] at h
      obtain ⟨-, h2⟩ := h
      subst h2
      exact speech_pair_nm _ _ _ _ _ hcs

theorem tallyCmd_nm (env : Env) (st : BotState) (g : Groups) (st' : BotState) (effs : List Eff)
    (h : handleTallyCommandAsync env st g = .ok (st', effs)) : noMarkers effs := by
  rw [handleTallyCommandAsync] at h
  split at h
  · exact tallyHelp_nm env st g st' effs h
  · exact tallyA_nm env st g st' effs h

theorem trHelp_nm (env : Env) (st : BotState) (g : Groups) (st' : BotState) (effs : List Eff)
    (h : describeTranslation env st g = .ok (st', effs)) : noMarkers effs := by
  rw [describeTranslation] at h
  simp only [Except.ok.injEq, Prod.mk.injEq] at h
  obtain ⟨-, h2⟩ := h
  subst h2
  exact noMarkers_cons rfl noMarkers_nil

theorem translate_nm (env : Env) (st : BotState) (g : Groups) (st' : BotState) (effs : List Eff)
    (h : translateAsync env st g = .ok (st', effs)) : noMarkers effs := by
  rw [translateAsync] at h
  split at h
  · simp only [Except.ok.injEq, Prod.mk.injEq] at h
    obtain ⟨-, h2⟩ := h
    subst h2
    exact noMarkers_cons rfl noMarkers_nil
  · simp only [Except.ok.injEq, Prod.mk.injEq] at h
    obtain ⟨-, h2⟩ := h
    subst h2
    intro e he
    obtain ⟨t, -, ht⟩ := List.mem_map.mp he
    rw [← ht]
    rfl

theorem trOr_nm (env : Env) (st : BotState) (g : Groups) (st' : BotState) (effs : List Eff)
    (h : translateOrDescribeAsync env st g = .ok (st', effs)) : noMarkers effs := by
  rw [translateOrDescribeAsync] at h
  split at h
  · exact trHelp_nm env st g st' effs h
  · exact translate_nm env st g st' effs h

theorem ukHelp_nm (env : Env) (st : BotState) (g : Groups) (st' : BotState) (effs : List Eff)
    (h : describeUserKeywordAsync env st g = .ok (st', effs)) : noMarkers effs := by
  rw [describeUserKeywordAsync] at h
  simp only [Except.ok.injEq, Prod.mk.injEq] at h
  obtain ⟨-, h2⟩ := h
  subst h2
  exact noMarkers_cons rfl noMarkers_nil

theorem ukSpeech_nm (env : Env) (st : BotState) (command : String)
    (keywords : List (String × String)) (st' : BotState) (effs : List Eff)
    (h : createUserKeywordsSpeechAsync env st command keywords = .ok (st', effs)) :
    noMarkers effs := by
  rw [createUserKeywordsSpeechAsync] at h
  split at h
  · dsimp only at h
    rename_i hle
    cases hcs : createSpeechAsync env
        (String.intercalate "\n"
          ((env.nowDateStr ++ env.nowTimeH ++ "時" ++ env.nowTimeM ++ "分" ++ env.nowTimeS ++
            "秒時点で登録されているキーワードの一覧は以下の通りです") :: "" ::
            keywords.map fun e => e.1 ++ " => " ++ e.2)) true with
    | mk sp e1 =>
      rw [hcs] at h
      simp only [Except.ok.injEq, Prod.mk.injEq] at h
      obtain ⟨-, h2⟩ := h
      subst h2
      exact speech_pair_nm _ _ _ _ _ hcs
  · split at h
    · exact absurd h (by simp)
    · rename_i sp e1 heq
      simp only [Except.ok.injEq, Prod.mk.injEq] at h
      obtain ⟨-, h2⟩ := h
      subst h2
      exact noMarkers_append (speech_pair_nm _ _ _ _ _ heq)
        (noMarkers_cons rfl noMarkers_nil)

theorem ukList_nm (env : Env) (st : BotState) (g : Groups) (st' : BotState) (effs : List Eff)
    (h : listUserKeywordsAsync env st g = .ok (st', effs)) : noMarkers effs := by
  rw [listUserKeywordsAsync] at h
  split at h
  · simp only [Except.ok.injEq, Prod.mk.injEq] at h
    obtain ⟨-, h2⟩ := h
    subst h2
    exact noMarkers_cons rfl noMarkers_nil
  · split at h
    · simp only [Except.ok.injEq, Prod.mk.injEq] at h
      obtain ⟨-, h2⟩ := h
      subst h2
      exact noMarkers_cons rfl noMarkers_nil
    · exact ukSpeech_nm env st _ _ st' effs h

theorem ukReg_nm (env : Env) (st : BotState) (g : Groups) (st' : BotState) (effs : List Eff)
    (h : registerUserKeywordAsync env st g = .ok (st', effs)) : noMarkers effs := by
  rw [registerUserKeywordAsync] at h
  split at h <;>
  [skip; (simp only [Except.ok.injEq, Prod.mk.injEq] at h;
          obtain ⟨-, h2⟩ := h; subst h2; exact noMarkers_cons rfl noMarkers_nil)]
  split at h <;>
  · simp only [Except.ok.injEq, Prod.mk.injEq] at h
    obtain ⟨-, h2⟩ := h
    subst h2
    exact noMarkers_cons rfl noMarkers_nil

theorem ukUnreg_nm (env : Env) (st : BotState) (g : Groups) (st' : BotState) (effs : List Eff)
    (h : unregisterUserKeywordAsync env st g = .ok (st', effs)) : noMarkers effs := by
  rw [unregisterUserKeywordAsync] at h
  split at h <;>
  [skip; (simp only [Except.ok.injEq, Prod.mk.injEq] at h;
          obtain ⟨-, h2⟩ := h; subst h2; exact noMarkers_cons rfl noMarkers_nil)]
  split at h <;>
  · simp only [Except.ok.injEq, Prod.mk.injEq] at h
    obtain ⟨-, h2⟩ := h
    subst h2
    exact noMarkers_cons rfl noMarkers_nil

theorem ukCmd_nm (env : Env) (st : BotState) (g : Groups) (st' : BotState) (effs : List Eff)
    (h : handleUserKeywordCommandAsync env st g = .ok (st', effs)) : noMarkers effs := by
  rw [handleUserKeywordCommandAsync] at h
  split at h
  · simp only [Except.ok.injEq, Prod.mk.injEq] at h
    obtain ⟨-, h2⟩ := h
    subst h2
    exact noMarkers_nil
  · split at h
    · exact ukHelp_nm env st g st' effs h
    · split at h
      · exact ukList_nm env st g st' effs h
      · split at h
        · exact ukReg_nm env st g st' effs h
        · split at h
          · exact ukUnreg_nm env st g st' effs h
          · simp only [Except.ok.injEq, Prod.mk.injEq] at h
            obtain ⟨-, h2⟩ := h
            subst h2
            exact noMarkers_nil

theorem table_nm (env : Env) :
    ∀ a ∈ patternTable env, ∀ (st : BotState) (g : Groups) (st' : BotState) (effs : List Eff),
      a.f st g = .ok (st', effs) → noMarkers effs := by
  intro a ha
  rw [patternTable] at ha
  fin_cases ha
  · exact fun st g st' effs h => calc_nm env st g st' effs h
  · exact fun st g st' effs h => dialogue_nm env st g st' effs h
  · exact fun st g st' effs h => helpG_nm env st g st' effs h
  · exact fun st g st' effs h => locate_nm env st g st' effs h
  · exact fun st g st' effs h => tallyCmd_nm env st g st' effs h
  · exact fun st g st' effs h => trOr_nm env st g st' effs h
  · exact fun st g st' effs h => ukCmd_nm env st g st' effs h

theorem routerLoop_nm (text : String) :
    ∀ (T : List Entry),
      (∀ a ∈ T, ∀ (st : BotState) (g : Groups) (st' : BotState) (effs : List Eff),
        a.f st g = .ok (st', effs) → noMarkers effs) →
      ∀ (st : BotState) (effs : List Eff) (b b' : Bool) (st' : BotState) (effs' : List Eff),
        noMarkers effs → routerLoop text T st effs b = .ok (b', st', effs') →
        noMarkers effs' := by
  intro T
  induction T with
  | nil =>
    intro _ st effs b b' st' effs' hne h
    rw [routerLoop] at h
    simp only [Except.ok.injEq, Prod.mk.injEq] at h
    obtain ⟨-, -, h3⟩ := h
    subst h3
    exact hne
  | cons a rest ih =>
    intro hT st effs b b' st' effs' hne h
    rw [routerLoop] at h
    cases hm : a.e text with
    | none =>
      rw [hm] at h
      dsimp only at h
      exact ih (fun x hx => hT x (List.mem_cons_of_mem a hx)) st effs false b' st' effs' hne h
    | some g =>
      rw [hm] at h
      dsimp only at h
      cases hf : a.f st g with
      | error e =>
        rw [hf] at h
        exact absurd h (by simp)
      | ok p =>
        obtain ⟨st1, e1⟩ := p
        rw [hf] at h
        dsimp only at h
        have he1 : noMarkers e1 := hT a (List.mem_cons_self a rest) st g st1 e1 hf
        exact ih (fun x hx => hT x (List.mem_cons_of_mem a hx)) st1 (effs ++ e1) true b' st'
          effs' (noMarkers_append hne he1) h

theorem router_nm (env : Env) (st : BotState) (text : String) (b : Bool)
    (st' : BotState) (effs : List Eff)
    (h : handleCanonicalCommandsAsync env st text = .ok (b, st', effs)) : noMarkers effs :=
  routerLoop_nm text (patternTable env) (table_nm env) st [] false b st' effs noMarkers_nil h

theorem alGet_alSet {α β : Type} [DecidableEq α] (k k' : α) (v : β) :
    ∀ l, alGet k' (alSet k v l) = if k = k' then some v else alGet k' l := by
  intro l
  induction l with
  | nil =>
    rw [alSet, alGet]
    by_cases h : k = k'
    · simp [h, alGet]
    · simp [h, alGet]
  | cons p t ih =>
    obtain ⟨k0, v0⟩ := p
    rw [alSet]
    by_cases h0 : k0 = k
    · rw [if_pos h0, alGet, alGet]
      by_cases h1 : k = k'
      · simp [h1]
      · have h01 : ¬(k0 = k') := fun he => h1 (h0 ▸ he)
        simp [h1, h01]
    · rw [if_neg h0, alGet, alGet]
      by_cases h1 : k0 = k'
      · have hk1 : ¬(k = k') := fun he => h0 (h1 ▸ he.symm ▸ rfl)
        simp [h1, hk1]
      · simp [h1, ih]

theorem tallyInsert_lookup (day : Nat) (epoch : Int) (w : Weekly) (id : String) (m : Msg)
    (a : Int) (b : String) :
    (alGet b ((alGet a (tallyInsert day epoch w id m)).getD [])).getD [] =
      if weekOf day epoch id = a ∧ m.host = b
      then (alGet b ((alGet a w).getD [])).getD [] ++ [m]
      else (alGet b ((alGet a w).getD [])).getD [] := by
  rw [tallyInsert]
  rw [alGet_alSet]
  by_cases hw : weekOf day epoch id = a
  · rw [if_pos hw]
    dsimp only [Option.getD]
    rw [alGet_alSet]
    by_cases hb : m.host = b
    · rw [if_pos hb, if_pos ⟨hw, hb⟩, hw, hb]
    · rw [if_neg hb, if_neg (fun hc => hb hc.2), hw]
  · rw [if_neg hw, if_neg (fun hc => hw hc.1)]

theorem foldl_tallyInsert_lookup (day : Nat) (epoch : Int) :
    ∀ (ps : List (String × Msg)) (w : Weekly) (a : Int) (b : String),
    (alGet b ((alGet a (ps.foldl (fun acc p => tallyInsert day epoch acc p.1 p.2) w)).getD
      [])).getD []
      = (alGet b ((alGet a w).getD [])).getD [] ++
        (ps.filterMap fun p =>
          if weekOf day epoch p.1 = a ∧ p.2.host = b then some p.2 else none) := by
  intro ps
  induction ps with
  | nil =>
    intro w a b
    simp
  | cons p t ih =>
    intro w a b
    rw [List.foldl_cons, List.filterMap_cons]
    by_cases hc : weekOf day epoch p.1 = a ∧ p.2.host = b
    · rw [if_pos hc, ih, tallyInsert_lookup, if_pos hc]
      simp [List.append_assoc]
    · rw [if_neg hc, ih, tallyInsert_lookup, if_neg hc]

theorem tallyWeekly_foldl (day : Nat) (epoch : Int) :
    ∀ (list : List Log) (w : Weekly),
    list.foldl (fun w item => (extract item.message.log).foldl
        (fun w2 m => tallyInsert day epoch w2 item.id m) w) w
      = (list.flatMap fun item => (extract item.message.log).map fun m => (item.id, m)).foldl
          (fun acc p => tallyInsert day epoch acc p.1 p.2) w := by
  intro list
  induction list with
  | nil =>
    intro w
    simp
  | cons item t ih =>
    intro w
    rw [List.foldl_cons, List.flatMap_cons, List.foldl_append, ih, List.foldl_map]

theorem bucketList_eq (env : Env) (st : BotState) (w : Int) (host : String) :
    bucketList env st w host =
      (matchPairs env st).filterMap fun p =>
        if p.1 = w ∧ p.2.1 = host then some p.2.2 else none := by
  rw [bucketList, hostsOf, tallyWeeklyOf, tallyWeekly, tallyWeekly_foldl]
  refine (foldl_tallyInsert_lookup env.nowDay env.yearEpochMs
    (st.recent.list.flatMap fun item =>
      (extract item.message.log).map fun m => (item.id, m)) [] w host).trans ?_
  rw [matchPairs]
  simp only [alGet, Option.getD, List.nil_append]
  induction st.recent.list with
  | nil => simp
  | cons item t ih =>
    rw [List.flatMap_cons, List.flatMap_cons, List.filterMap_append, List.filterMap_append, ih]
    congr 1
    rw [List.filterMap_map, List.filterMap_map]
    rfl

theorem weeks_sorted (env : Env) (st : BotState) :
    List.Sorted descending (tallyWeeksOf env st) :=
  List.sorted_insertionSort descending _

theorem hosts_sorted (env : Env) (st : BotState) (w : Int) :
    List.Sorted freqGe (hostsSorted env st w) :=
  List.sorted_insertionSort freqGe _

theorem hosts_perm (env : Env) (st : BotState) (w : Int) :
    (hostsSorted env st w).Perm (hostsOf env st w) :=
  List.perm_insertionSort freqGe _

theorem tallySection_eq_tallyLines (env : Env) (st : BotState) (name : String) (w : Int)
    (h : w ∈ (tallyWeeklyOf env st).map Prod.fst) :
    tallySection (tallyWeeklyOf env st) name (some w) = .ok (tallyLines env st name w) := by
  obtain ⟨hosts, hh⟩ := Option.isSome_iff_exists.mp (alGet_isSome_of_mem w _ h)
  rw [tallySection_of_get _ name w hosts hh]
  simp only [tallyLines, hostsSorted, hostsOf, hh, Option.getD]

/-! ## The claims -/

/-- C2: for every normalized message body, the command router tests the
body against every entry of the pattern table in order without
short-circuiting, runs the handler of each matching entry in table
order (threading the state and concatenating their effect traces, with
a handler failure aborting the run), and returns a boolean equal to
whether the *last* entry of the table matched — not whether any entry
matched. -/
theorem claim2_router_runs_all_reports_last (env : Env) (st : BotState) (text : String) :
    handleCanonicalCommandsAsync env st text =
      match runMatching text (patternTable env) st with
      | .error e => .error e
      | .ok (st', effs) =>
        .ok ((((patternTable env).getLast?).map fun a => (a.e text).isSome).getD false,
             st', effs) := by
  rw [handleCanonicalCommandsAsync, routerLoop_eq, ← lastMatchedFrom_eq]
  cases runMatching text (patternTable env) st with
  | error e => rfl
  | ok p => simp

/-- C1 (evaluation at the failing input): merging a record that is older
than every cached record — here `1-0` into a sorted cache holding only
`2-0`, with fresh raw text — splices it *before* the last element
(`findIndex` misses, and `splice(-1)` starts at the last position), so
the resulting sequence `[1-0, 2-0]` is no longer sorted strictly
descending by id.  The head and middle cases splice correctly; the tail
case contradicts the specified invariant. -/
theorem claim1_tail_merge_breaks_order :
    cacheOne.set.contains logOld.message.log = false ∧
    sortedDescB cacheOne.list = true ∧
    jsStringLt logOld.id "2-0" = true ∧
    updateRecent cacheOne logOld =
      ⟨[logOld, ⟨"2-0", ⟨"b"⟩⟩], [("2-0", ⟨"2-0", ⟨"b"⟩⟩), ("1-0", logOld)], ["b", "a"]⟩ ∧
    sortedDescB (updateRecent cacheOne logOld).list = false :=
  ⟨rfl, rfl, rfl, rfl, rfl⟩

/-- C5 (evaluation at the failing input): the validator's successful and
positive-deficit outcomes are as specified, but a negative open-group
count does *not* raise the distinct invalid-closing-group error: the
index expression `isNaN(opened) * 2 + (opened === 0)` can never select
the `不正な閉じ括弧があります` message because the count is always an
integer, so `"1+2)"` is reported as `-1個の閉じ括弧が不足しています`. -/
theorem claim5_validator_outcomes :
    validateParentheses "1+(2*3)" = .ok () ∧
    validateParentheses "(1+2" = .error "1個の閉じ括弧が不足しています" ∧
    validateParentheses "1+2)" = .error "-1個の閉じ括弧が不足しています" ∧
    ("-1個の閉じ括弧が不足しています" : String) ≠ "不正な閉じ括弧があります" ∧
    validateParentheses "foo(1)" = .error "fooは関数ではありません" ∧
    validateParentheses "cos(0)+sin(0)" = .ok () :=
  ⟨rfl, rfl, rfl, by decide, rfl, rfl⟩

/-- C9: the bare body `キーワード` matches the user-keyword pattern with
every capture group absent; the sub-dispatch index trick then yields the
null key, which selects no handler of the template (JavaScript coerces
`null` to the absent key `"null"`), so the handler returns without any
reply; and since the user-keyword entry is the *last* router entry, the
router's match indicator is true, so the keyword engine is skipped —
the record's whole trace is persist, broadcast and the router call,
with no send and no keyword-engine call. -/
theorem claim9_bare_keyword_is_silent :
    userKeywordMatch "キーワード" = some {} ∧
    determineUserKeywordCommandHandler {} ["--help", "一覧", "登録", "解除"] = none ∧
    handleUserKeywordCommandAsync env0 st0 {} = .ok (st0, []) ∧
    handleCanonicalCommandsAsync env0 st0 "キーワード" = .ok (true, st0, []) ∧
    mKW.self = false ∧ mKW.msg = "キーワード" ∧
    processRecord env0 st0 "10-0" mKW =
      .ok (⟨⟨[⟨"10-0", ⟨"raw"⟩⟩], [("10-0", ⟨"10-0", ⟨"raw"⟩⟩)], ["raw"]⟩, [], []⟩,
           [Eff.persist "raw", Eff.broadcast ⟨"10-0", ⟨"raw"⟩⟩,
            Eff.routerInvoked "キーワード"]) :=
  ⟨rfl, rfl, rfl, rfl, rfl, rfl, rfl⟩

/-- C3 (counterexample): inserting a record whose raw text `x` is already
in the cache through the *live append* operation is not a no-op — the
append path never consults the dedup set, so the list grows from one
record to two. -/
theorem claim3_append_duplicate_not_noop :
    (⟨[⟨"1-0", ⟨"x"⟩⟩], [("1-0", ⟨"1-0", ⟨"x"⟩⟩)], ["x"]⟩ : RecentCache).set.contains "x"
      = true ∧
    ((appendLog ⟨[⟨"1-0", ⟨"x"⟩⟩], [("1-0", ⟨"1-0", ⟨"x"⟩⟩)], ["x"]⟩ "5-0" "x").1).list
      = [⟨"5-0", ⟨"x"⟩⟩, ⟨"1-0", ⟨"x"⟩⟩] :=
  ⟨rfl, rfl⟩

/-- C3 (amended): re-insertion of an already-present raw text is a no-op
for the historical *merge* operation — the cache is returned entirely
unchanged — while the live *append* operation performs no duplicate
check and always grows the sequence by one record. -/
theorem claim3_merge_idempotent_append_unconditional :
    (∀ (c : RecentCache) (log : Log),
        c.set.contains log.message.log = true → updateRecent c log = c) ∧
    (∀ (c : RecentCache) (id text : String),
        ((appendLog c id text).1).list.length = c.list.length + 1) := by
  constructor
  · intro c log h
    rw [updateRecent, h]
    rfl
  · intro c id text
    rfl

/-- C3 (witness): the amended statement at a concrete cache. -/
theorem claim3_witness :
    updateRecent ⟨[⟨"1-0", ⟨"x"⟩⟩], [("1-0", ⟨"1-0", ⟨"x"⟩⟩)], ["x"]⟩ ⟨"5-0", ⟨"x"⟩⟩
      = ⟨[⟨"1-0", ⟨"x"⟩⟩], [("1-0", ⟨"1-0", ⟨"x"⟩⟩)], ["x"]⟩ ∧
    ((appendLog ⟨[⟨"1-0", ⟨"x"⟩⟩], [("1-0", ⟨"1-0", ⟨"x"⟩⟩)], ["x"]⟩ "9-0" "y").1).list.length
      = ([⟨"1-0", ⟨"x"⟩⟩] : List Log).length + 1 :=
  ⟨claim3_merge_idempotent_append_unconditional.1 _ _ rfl,
   claim3_merge_idempotent_append_unconditional.2 _ "9-0" "y"⟩

/-- C6 (counterexample): a chunk of exactly the configured threshold's
byte length (70, the constructor default) that contains one complete
framed message is ignored entirely — the framer requires the byte
length to *exceed* the threshold, so "at the threshold" does not
produce the record the claim promises. -/
theorem claim6_at_threshold_ignored :
    chunk70.utf8ByteSize = 70 ∧
    extract (String.mk (stripBreaks chunk70.toList)) =
      [⟨chunk70, "aaaaaa", "01/02 (x)", "03:04:05", "h", false⟩] ∧
    frame 70 chunk70 = [] :=
  ⟨rfl, rfl, rfl⟩

/-- C6 (amended): a chunk whose byte length is at most the threshold —
not only strictly below it — produces no event records; only a chunk
whose byte length strictly exceeds the threshold is decoded, stripped
of line breaks, and scanned for every occurrence of the framing pattern
in left-to-right document order. -/
theorem claim6_frame_threshold (t : Nat) (s : String) :
    (s.utf8ByteSize ≤ t → frame t s = []) ∧
    (t < s.utf8ByteSize → frame t s = extract (String.mk (stripBreaks s.toList))) := by
  constructor
  · intro h
    rw [frame, if_neg (Nat.not_lt.mpr h)]
  · intro h
    rw [frame, if_pos h]

/-- C6 (witness): a 131-byte chunk holding two framed messages separated
by a line break clears the threshold and yields both records, in
document order. -/
theorem claim6_witness :
    70 < chunk2.utf8ByteSize ∧
    frame 70 chunk2 =
      [⟨txtA, "hello", "01/02 (x)", "03:04:05", "hostA", false⟩,
       ⟨txtB, "world", "01/02 (x)", "03:04:05", "hostB", false⟩] :=
  ⟨by decide, ((claim6_frame_threshold 70 chunk2).2 (by decide)).trans rfl⟩

/-- C4 (counterexample): a failure raised inside the tally handler — the
`TypeError` it throws on a cache with fewer than two week buckets — is
*not* caught at the handler boundary: it escapes
`handleCanonicalCommandsAsync` itself, so no user-visible reply is
produced and the remaining table entries are never evaluated. -/
theorem claim4_tally_failure_escapes_router :
    handleCanonicalCommandsAsync env0 st0 "集計" = .error tallyTypeError :=
  rfl

/-- C4 (amended): only the calculation handler catches its failures at
the handler boundary — validation and evaluation errors both become a
user-visible reply and the handler never throws — while a failure in
another handler, such as the tally handler's `TypeError` on a cache
with fewer than two occupied week buckets, propagates out of the router
and aborts the evaluation of the remaining table entries. -/
theorem claim4_only_calc_catches :
    (∀ (env : Env) (st : BotState) (g : Groups),
        ∃ st' effs, calculateAsync env st g = .ok (st', effs)) ∧
    (∀ (env : Env) (st : BotState), st.recent.list = [] →
        handleCanonicalCommandsAsync env st "集計" = .error tallyTypeError) := by
  constructor
  · intro env st g
    rw [calculateAsync]
    split
    · exact ⟨_, _, rfl⟩
    · exact ⟨_, _, rfl⟩
  · intro env st h
    rw [handleCanonicalCommandsAsync, patternTable]
    simp only [routerLoop,
      show calcMatch "集計" = none from rfl,
      show dialogueMatch "集計" = none from rfl,
      show helpMatch "集計" = none from rfl,
      show logMatch "集計" = none from rfl,
      show tallyMatch "集計" = some {} from rfl]
    rw [handleTally_empty env st h]

/-- C4 (witness): the amended statement at a concrete state — the
calculation handler converts the invalid expression `1+2)` into a
reply, and the tally failure escapes the router on the empty cache. -/
theorem claim4_witness :
    (∃ st' effs, calculateAsync env0 st0 { expr := some "1+2)" } = .ok (st', effs)) ∧
    handleCanonicalCommandsAsync env0 st0 "集計" = .error tallyTypeError :=
  ⟨claim4_only_calc_catches.1 env0 st0 { expr := some "1+2)" },
   claim4_only_calc_catches.2 env0 st0 rfl⟩

/-- C10: on a cache whose records occupy fewer than two distinct week
buckets — the empty cache included — the tally operation fails with the
runtime `TypeError` it incurs by dereferencing the host map of the
absent second (or first) week, instead of returning a report; with at
least two occupied buckets, every looked-up week is a key of the bucket
map and the error branch is unreachable, so a report is returned. -/
theorem claim10_tally_needs_two_weeks (env : Env) (st : BotState) :
    ((tallyWeeksOf env st).length < 2 → tally env st = .error tallyTypeError) ∧
    (2 ≤ (tallyWeeksOf env st).length → ∃ lines, tally env st = .ok lines) := by
  cases hw : tallyWeeksOf env st with
  | nil =>
    constructor
    · intro _
      rw [tally_eq_sections, hw]
      rfl
    · intro h2
      simp at h2
  | cons w0 tail =>
    have hm0 : w0 ∈ (tallyWeeklyOf env st).map Prod.fst :=
      (weeks_perm env st).mem_iff.mp (hw ▸ List.mem_cons_self w0 tail)
    obtain ⟨l1, hl1⟩ := tallySection_some_of_mem (tallyWeeklyOf env st) "今" w0 hm0
    cases tail with
    | nil =>
      constructor
      · intro _
        rw [tally_eq_sections, hw]
        simp only [List.getElem?_cons_zero, List.getElem?_cons_succ]
        rw [hl1]
        rfl
      · intro h2
        simp at h2
    | cons w1 t2 =>
      have hm1 : w1 ∈ (tallyWeeklyOf env st).map Prod.fst :=
        (weeks_perm env st).mem_iff.mp
          (hw ▸ List.mem_cons_of_mem w0 (List.mem_cons_self w1 t2))
      obtain ⟨l2, hl2⟩ := tallySection_some_of_mem (tallyWeeklyOf env st) "先" w1 hm1
      constructor
      · intro hlt
        simp at hlt
        omega
      · intro _
        rw [tally_eq_sections, hw]
        simp only [List.getElem?_cons_zero, List.getElem?_cons_succ]
        rw [hl1, hl2]
        exact ⟨l1 ++ l2, rfl⟩

/-- C10 (witness): the empty cache occupies no bucket and the tally
errors; a concrete cache with records seven days apart occupies two
buckets and the tally returns a report. -/
theorem claim10_witness :
    tally env0 st0 = .error tallyTypeError ∧ (∃ lines, tally env0 stT = .ok lines) :=
  ⟨(claim10_tally_needs_two_weeks env0 st0).1 (by decide),
   (claim10_tally_needs_two_weeks env0 stT).2 (by decide)⟩

/-- C7: for every extracted event record, the dispatch coordinator
invokes the command router if and only if the record is not
self-authored, and invokes the keyword engine if and only if the record
is not self-authored and the router's last-pattern-match indicator came
back false — observed through the dispatch trace, whose
`routerInvoked`/`keywordsInvoked` call markers no handler can emit. -/
theorem claim7_router_iff_not_self (env : Env) (st : BotState) (id : String) (m : Msg)
    (st' : BotState) (effs : List Eff)
    (h : processRecord env st id m = .ok (st', effs)) :
    (Eff.routerInvoked m.msg ∈ effs ↔ m.self = false) ∧
    (Eff.keywordsInvoked m.msg ∈ effs ↔
      (m.self = false ∧
       ∃ st2 effs1, handleCanonicalCommandsAsync env
           { st with recent := (appendLog st.recent id m.matched).1 } m.msg
         = .ok (false, st2, effs1))) := by
  rw [processRecord] at h
  dsimp only at h
  split at h
  case isTrue hself =>
    simp only [Except.ok.injEq, Prod.mk.injEq] at h
    obtain ⟨-, h2⟩ := h
    subst h2
    refine ⟨⟨fun hin => by simp at hin, fun hfalse => by simp [hself] at hfalse⟩,
            ⟨fun hin => by simp at hin, ?_⟩⟩
    rintro ⟨hfalse, -⟩
    simp [hself] at hfalse
  case isFalse hself =>
    have hselfF : m.self = false := by
      simp at hself
      exact hself
    cases heq : handleCanonicalCommandsAsync env
        { st with recent := (appendLog st.recent id m.matched).1 } m.msg with
    | error e =>
      rw [heq] at h
      exact absurd h (by simp)
    | ok p =>
      obtain ⟨matchedLast, st2, effs1⟩ := p
      rw [heq] at h
      dsimp only at h
      split at h
      case isTrue hml =>
        simp only [Except.ok.injEq, Prod.mk.injEq] at h
        obtain ⟨-, h2⟩ := h
        subst h2
        have hnm : noMarkers effs1 := router_nm env _ m.msg _ _ _ heq
        refine ⟨⟨fun _ => hselfF, fun _ => by simp⟩, ⟨?_, ?_⟩⟩
        · intro hin
          exfalso
          simp at hin
          have := hnm _ hin
          simp [isMarker] at this
        · rintro ⟨-, st3, effs3, heq2⟩
          simp only [Except.ok.injEq, Prod.mk.injEq] at heq2
          rw [hml] at heq2
          exact absurd heq2.1 (by simp)
      case isFalse hml =>
        cases hts : testUserKeywordsAsync env st2 m with
        | mk st3 effs2 =>
          rw [hts] at h
          dsimp only at h
          simp only [Except.ok.injEq, Prod.mk.injEq] at h
          obtain ⟨-, h2⟩ := h
          subst h2
          have hmlF : matchedLast = false := by
            simp at hml
            exact hml
          refine ⟨⟨fun _ => hselfF, fun _ => by simp⟩,
                  ⟨fun _ => ⟨hselfF, st2, effs1, by rw [hmlF]⟩,
                   fun _ => by simp⟩⟩

/-- C7 (witness): the sequencing statement at a concrete non-self record
(the bare-keyword message), whose trace is persist, broadcast and the
router call. -/
theorem claim7_witness :
    (Eff.routerInvoked mKW.msg ∈
        [Eff.persist "raw", Eff.broadcast ⟨"10-0", ⟨"raw"⟩⟩, Eff.routerInvoked "キーワード"] ↔
      mKW.self = false) ∧
    (Eff.keywordsInvoked mKW.msg ∈
        [Eff.persist "raw", Eff.broadcast ⟨"10-0", ⟨"raw"⟩⟩, Eff.routerInvoked "キーワード"] ↔
      (mKW.self = false ∧
       ∃ st2 effs1, handleCanonicalCommandsAsync env0
           { st0 with recent := (appendLog st0.recent "10-0" mKW.matched).1 } mKW.msg
         = .ok (false, st2, effs1))) :=
  claim7_router_iff_not_self env0 st0 "10-0" mKW
    ⟨⟨[⟨"10-0", ⟨"raw"⟩⟩], [("10-0", ⟨"10-0", ⟨"raw"⟩⟩)], ["raw"]⟩, [], []⟩
    [Eff.persist "raw", Eff.broadcast ⟨"10-0", ⟨"raw"⟩⟩, Eff.routerInvoked "キーワード"]
    rfl

/-- C8: at a fixed evaluation moment (weekday and start-of-year epoch)
and for a fixed cache, every match of every cached record is assigned
to the week bucket `ceil((weekday + 1 + daysSinceYearStart(idMillis)) / 7)`
(the `weekOf`/`matchPairs` characterization below: the contents of the
bucket of week `w` and host `h` are exactly the matches with that week
and host, in traversal order); the report covers the two most recent
occupied buckets `w0 > w1` (the week list is a descending-sorted
permutation of the bucket keys, and every key is `≤ w0`, and `≤ w1`
unless it equals `w0`), each section reporting the distinct-host count
and the top five hosts by descending match frequency (a stable sort of
the host table).  The embedding is a pure function of the moment and the
cache, so the whole report is deterministic. -/
theorem claim8_weekly_buckets_and_report (env : Env) (st : BotState) (h2 : 2 ≤ (tallyWeeksOf env st).length) :
    ∃ w0 w1 rest, tallyWeeksOf env st = w0 :: w1 :: rest ∧
      List.Sorted descending (tallyWeeksOf env st) ∧
      (tallyWeeksOf env st).Perm ((tallyWeeklyOf env st).map Prod.fst) ∧
      (∀ w ∈ (tallyWeeklyOf env st).map Prod.fst, w ≤ w0 ∧ (w = w0 ∨ w ≤ w1)) ∧
      tally env st = .ok (tallyLines env st "今" w0 ++ tallyLines env st "先" w1) ∧
      (∀ w host, bucketList env st w host =
        (matchPairs env st).filterMap fun p =>
          if p.1 = w ∧ p.2.1 = host then some p.2.2 else none) ∧
      (∀ w, List.Sorted freqGe (hostsSorted env st w) ∧
            (hostsSorted env st w).Perm (hostsOf env st w)) := by
  cases hw : tallyWeeksOf env st with
  | nil =>
    rw [hw] at h2
    simp at h2
  | cons w0 tail =>
    cases tail with
    | nil =>
      rw [hw] at h2
      simp at h2
    | cons w1 rest =>
      have hsorted : List.Sorted descending (w0 :: w1 :: rest) := by
        rw [← hw]
        exact weeks_sorted env st
      have hperm2 : (w0 :: w1 :: rest).Perm ((tallyWeeklyOf env st).map Prod.fst) := by
        rw [← hw]
        exact weeks_perm env st
      have hm0 : w0 ∈ (tallyWeeklyOf env st).map Prod.fst :=
        hperm2.mem_iff.mp (List.mem_cons_self w0 (w1 :: rest))
      have hm1 : w1 ∈ (tallyWeeklyOf env st).map Prod.fst :=
        hperm2.mem_iff.mp (List.mem_cons_of_mem w0 (List.mem_cons_self w1 rest))
      refine ⟨w0, w1, rest, rfl, hsorted, hperm2, ?_, ?_,
        fun w host => bucketList_eq env st w host,
        fun w => ⟨hosts_sorted env st w, hosts_perm env st w⟩⟩
      · intro w hwmem
        have hmemw : w ∈ w0 :: w1 :: rest := hperm2.mem_iff.mpr hwmem
        rw [List.sorted_cons] at hsorted
        obtain ⟨hs0, hsorted1⟩ := hsorted
        rw [List.sorted_cons] at hsorted1
        obtain ⟨hs1, -⟩ := hsorted1
        rcases List.mem_cons.mp hmemw with hww | hmemw1
        · exact ⟨le_of_eq hww, Or.inl hww⟩
        · refine ⟨hs0 w hmemw1, Or.inr ?_⟩
          rcases List.mem_cons.mp hmemw1 with hww | hmemw2
          · exact le_of_eq hww
          · exact hs1 w hmemw2
      · rw [tally_eq_sections, hw]
        simp only [List.getElem?_cons_zero, List.getElem?_cons_succ]
        rw [tallySection_eq_tallyLines env st "今" w0 hm0,
          tallySection_eq_tallyLines env st "先" w1 hm1]

/-- C8 (witness): the bucket/report statement at the concrete two-bucket
cache `stT` and the concrete evaluation moment of `env0`. -/
theorem claim8_witness :
    ∃ w0 w1 rest, tallyWeeksOf env0 stT = w0 :: w1 :: rest ∧
      List.Sorted descending (tallyWeeksOf env0 stT) ∧
      (tallyWeeksOf env0 stT).Perm ((tallyWeeklyOf env0 stT).map Prod.fst) ∧
      (∀ w ∈ (tallyWeeklyOf env0 stT).map Prod.fst, w ≤ w0 ∧ (w = w0 ∨ w ≤ w1)) ∧
      tally env0 stT = .ok (tallyLines env0 stT "今" w0 ++ tallyLines env0 stT "先" w1) ∧
      (∀ w host, bucketList env0 stT w host =
        (matchPairs env0 stT).filterMap fun p =>
          if p.1 = w ∧ p.2.1 = host then some p.2.2 else none) ∧
      (∀ w, List.Sorted freqGe (hostsSorted env0 stT w) ∧
            (hostsSorted env0 stT w).Perm (hostsOf env0 stT w)) :=
  claim8_weekly_buckets_and_report env0 stT (by decide)

end Koukoku
